import Mathlib

/-!
# shc-decode: a shallow embedding of `main.c`

The program reads a SMART Health Card given as QR numeric text
(`shc:/` followed by digit pairs), transcodes the digit pairs of each section
into base64 text, decodes it, and for the payload section repacks the bytes
into 32-bit words, inflates them and prints the result.

Conventions of the embedding.

* Bytes and characters are natural numbers; `int` values (`fgetc` results,
  the arithmetic of the transcoder) are integers.
* A `FILE` is the size reported by `fstat` together with the bytes not yet
  read.  Read errors (`ferror`) and allocation failures do not occur.
* `assert` is active: a failed assertion ends the run with an error.  It does
  so by `abort()`, which does not flush `stdout`.
* The two library routines the program calls, `base64_decode_block`
  (`b64/cdecode.h`) and zlib's `inflate`, are not part of the repository; the
  functions that call them take them as parameters.
* Loops carry an explicit iteration budget; the budget passed by the caller is
  the bound the C loop condition itself enforces.
* Sizes and loop indices are natural numbers: inputs are taken to be small
  enough for `size_t` and `int` arithmetic not to wrap.  Values stored into
  `uint8_t` and `uint32_t` objects are reduced modulo `2^8` and `2^32`.
* Standard output is the sequence of bytes written to the stream, together
  with the note whether the way the run ends flushes the stream.
* Buffers are lists: allocation sizes are not tracked, bounds are stated on the
  indices the loops use.
* `spec_base64_decode_block`, `stored_inflate` and `rfc1951_inflate` are
  instances of the two library routines modelled from the specification; they
  serve in examples and where a claim is about the routines themselves.
-/

namespace ShcDecode

/-! ## Errors and the input stream -/

/-- The ways a run can end early.  `ReadFailed`, `BadPrefix`, `NonDigit`,
`InvalidEncoding`, `NotAscii`, `InvalidBase64` and `DecompressionFailed` are the
failure exits of `main.c`; `TruncatedPair` and `AllocationFailure` are the
remaining names of the specification's taxonomy. -/
inductive FormatError where
  | ReadFailed
  | BadPrefix
  | NonDigit
  | InvalidEncoding
  | NotAscii
  | TruncatedPair
  | InvalidBase64
  | DecompressionFailed
  | AllocationFailure
  deriving DecidableEq, Repr

/-- An open input file: `st_size` is what `fstat` reports, `unread` the bytes
from the current position to the end of the file. -/
structure FILE where
  st_size : Nat
  unread : List Nat
  deriving DecidableEq, Repr

/-- The file as `fopen` hands it over: positioned at its first byte. -/
def fopen (content : List Nat) : FILE :=
  { st_size := content.length, unread := content }

/-- The value `fgetc` returns at end of file. -/
def EOF : Int := -1

/-- The call `fgetc`: the next byte, or `EOF` when none is left. -/
def fgetc (fp : FILE) : Int × FILE :=
  match fp.unread with
  | [] => (EOF, fp)
  | c :: cs => ((c : Int), { fp with unread := cs })

/-- The call `fread(buf, 1, len, fp)`: the bytes obtained (at most `len`) and the
advanced file. -/
def fread (len : Nat) (fp : FILE) : List Nat × FILE :=
  (fp.unread.take len, { fp with unread := fp.unread.drop len })

/-- The function `strlen`: the number of bytes before the terminating NUL. -/
def strlen (s : List Nat) : Nat :=
  (s.takeWhile (fun c => c != 0)).length

/-- The test `strncmp(s1, s2, n) == 0`.  Reading past the end of a list yields the
terminating NUL of the C string. -/
def strncmp_eq : Nat → List Nat → List Nat → Bool
  | 0, _, _ => true
  | n + 1, s1, s2 =>
    let c1 := s1.headD 0
    let c2 := s2.headD 0
    if c1 ≠ c2 then false
    else if c1 = 0 then true
    else strncmp_eq n s1.tail s2.tail

/-- The function `scan_token` (main.c:13-31). A short read is the fatal exit
"Failed to read requested bytes."; otherwise the result says whether the bytes
read equal the token. -/
def scan_token (fp : FILE) (token : List Nat) : Except FormatError (Bool × FILE) :=
  let len := strlen token
  let (buf, fp1) := fread len fp
  if buf.length ≠ len then .error .ReadFailed
  else .ok (strncmp_eq len buf token, fp1)

/-! ## The digit-pair transcoder -/

/-- The struct `pair_t` (main.c:33-35). -/
structure pair_t where
  a : Int
  b : Int
  deriving DecidableEq, Repr

/-- The function `read_pair` (main.c:39-44): two `fgetc` calls, successful when neither is
`EOF`. -/
def read_pair (fp : FILE) : Bool × pair_t × FILE :=
  let (a, fp1) := fgetc fp
  let (b, fp2) := fgetc fp1
  (decide (a ≠ EOF ∧ b ≠ EOF), { a := a, b := b }, fp2)

/-- The test `isdigit` of `ctype.h`. -/
def isdigit (c : Int) : Bool := decide (48 ≤ c ∧ c ≤ 57)

/-- The test `isascii` of `ctype.h`. -/
def isascii (c : Int) : Bool := decide (0 ≤ c ∧ c ≤ 127)

/-- The value `c` computed at main.c:66-68. -/
def pair_value (a b : Int) : Int :=
  let a_val := 9 - (57 - a)
  let b_val := 9 - (57 - b)
  45 + ((10 * a_val) + b_val)

/-- The body of the transcoding loop (main.c:63-77) for one pair: an error when
an assertion fails, `none` on the section delimiter (`break`), otherwise the
character stored into `b64ascii`. -/
def decode_pair (pr : pair_t) : Except FormatError (Option Nat) :=
  let a := pr.a
  let b := pr.b
  if ¬ (isdigit a ∧ isdigit b) then .error .NonDigit
  else
    let a_val := 9 - (57 - a)
    let b_val := 9 - (57 - b)
    let c := pair_value a b
    if ¬ (a_val < 10 ∧ b_val < 10) then .error .InvalidEncoding
    else if ¬ isascii c then .error .NotAscii
    else if c = 46 then .ok none
    else if c = 45 then .ok (some 43)
    else if c = 95 then .ok (some 47)
    else .ok (some (c.toNat % 256))

/-- The loop of main.c:59-78.  `b64ascii` holds the characters stored so far,
so `buf_idx` is its length. -/
def transcode_loop (buf_size : Nat) : Nat → FILE → List Nat →
    Except FormatError (List Nat × FILE)
  | 0, fp, b64ascii => .ok (b64ascii, fp)
  | fuel + 1, fp, b64ascii =>
    if b64ascii.length < buf_size then
      match read_pair fp with
      | (false, _, fp1) => .ok (b64ascii, fp1)
      | (true, pr, fp1) =>
        match decode_pair pr with
        | .error e => .error e
        | .ok none => .ok (b64ascii, fp1)
        | .ok (some c) => transcode_loop buf_size fuel fp1 (b64ascii ++ [c])
    else .ok (b64ascii, fp)

/-- The type of the library routine `base64_decode_block` as the program uses
it: the base64 text is mapped to the bytes stored at the start of the output
buffer, `none` standing for a negative return value. -/
abbrev Base64Decoder : Type := List Nat → Option (List Nat)

/-- The type of zlib's `inflate` as the program uses it: the input bytes
(`next_in`, `avail_in`) and the output capacity (`avail_out`) are mapped to the
bytes written, `none` standing for any return value other than
`Z_STREAM_END`. -/
abbrev Inflater : Type := List Nat → Nat → Option (List Nat)

/-- The function `decode_qr_section_into_ascii` (main.c:48-90). The result is the returned
`buf_idx`, the output buffer after the call and the advanced file. -/
def decode_qr_section_into_ascii (base64_decode_block : Base64Decoder) (fp : FILE)
    (buf : List Nat)
    (buf_size : Nat) : Except FormatError (Nat × List Nat × FILE) :=
  match transcode_loop buf_size buf_size fp [] with
  | .error e => .error e
  | .ok (b64ascii, fp1) =>
    match base64_decode_block b64ascii with
    | none => .error .InvalidBase64
    | some plain => .ok (b64ascii.length, plain ++ buf.drop plain.length, fp1)

/-! ## Header and payload -/

/-- The function `get_filesize` (main.c:92-100). -/
def get_filesize (fp : FILE) : Nat := fp.st_size

/-- What `printf("%s", buf)` writes: the bytes before the first NUL. -/
def printf_s (buf : List Nat) : List Nat :=
  buf.takeWhile (fun c => c != 0)

/-- The function `read_jws_header` (main.c:102-115): the bytes written to
standard output and the advanced file. -/
def read_jws_header (base64_decode_block : Base64Decoder) (fp : FILE) :
    Except FormatError (List Nat × FILE) :=
  let buf_size := get_filesize fp
  let buf := List.replicate buf_size 0
  match decode_qr_section_into_ascii base64_decode_block fp buf buf_size with
  | .error e => .error e
  | .ok (_, buf1, fp1) =>
    let buf2 := buf1.set (buf_size - 1) 0
    .ok (printf_s buf2, fp1)

/-- One iteration of the packing loop (main.c:136-140): the word stored in
`wide[j]` for byte index `i`. The shifts act on the unsigned byte values. -/
def pack_word (buf : List Nat) (section_size i : Nat) : Nat :=
  let a := buf.getD (i + 0) 0 % 256
  let b := if i + 1 < section_size then buf.getD (i + 1) 0 % 256 else 0
  let c := if i + 2 < section_size then buf.getD (i + 2) 0 % 256 else 0
  let d := if i + 3 < section_size then buf.getD (i + 3) 0 % 256 else 0
  ((d <<< 24) ||| (c <<< 16) ||| (b <<< 8) ||| a) % 2 ^ 32

/-- The packing loop (main.c:135-141); `wide` holds the words stored so far,
so `j` is its length. -/
def pack_loop (buf : List Nat) (section_size : Nat) : Nat → Nat → List Nat → List Nat
  | 0, _, wide => wide
  | fuel + 1, i, wide =>
    if i < section_size then
      pack_loop buf section_size fuel (i + 4) (wide ++ [pack_word buf section_size i])
    else wide

/-- The words produced by the packing loop, started at `i = 0`, `j = 0`. -/
def pack_words (buf : List Nat) (section_size : Nat) : List Nat :=
  pack_loop buf section_size section_size 0 []

/-- The four bytes a 32-bit word occupies in memory on a little-endian
machine. -/
def le_bytes (w : Nat) : List Nat :=
  [w % 256, w / 2 ^ 8 % 256, w / 2 ^ 16 % 256, w / 2 ^ 24 % 256]

/-- The memory image of an array of 32-bit words on a little-endian machine. -/
def wide_bytes (wide : List Nat) : List Nat :=
  (wide.map le_bytes).flatten

/-- The output loop (main.c:167-171); `out` holds the bytes written so far. -/
def emit_loop (inf_buf : List Nat) (inf_size : Nat) : Nat → Nat → List Nat → List Nat
  | 0, _, out => out
  | fuel + 1, i, out =>
    if i < inf_size then
      if inf_buf.getD i 0 = 0 then out
      else emit_loop inf_buf inf_size fuel (i + 1) (out ++ [inf_buf.getD i 0])
    else out

/-- The bytes the output loop writes, started at `i = 0`. -/
def emit_payload (inf_buf : List Nat) (inf_size : Nat) : List Nat :=
  emit_loop inf_buf inf_size inf_size 0 []

/-- The function `read_jws_payload` (main.c:117-176): the bytes written to
standard output and the advanced file.  The inflater is given the first
`wide_size` bytes of the memory image of `wide` and `inf_size` bytes of output
space; the output buffer starts zeroed. -/
def read_jws_payload (base64_decode_block : Base64Decoder) (inflate : Inflater) (fp : FILE) :
    Except FormatError (List Nat × FILE) :=
  let file_size := get_filesize fp
  let buf := List.replicate file_size 0
  match decode_qr_section_into_ascii base64_decode_block fp buf file_size with
  | .error e => .error e
  | .ok (section_size, buf1, fp1) =>
    let wide_size := section_size
    let wide := pack_words buf1 section_size
    let inf_size := file_size * 4
    match inflate ((wide_bytes wide).take wide_size) inf_size with
    | none => .error .DecompressionFailed
    | some written =>
      let inf_buf := written ++ List.replicate (inf_size - written.length) 0
      .ok (emit_payload inf_buf inf_size, fp1)

/-- The bytes of the token `"shc:/"`. -/
def shc_token : List Nat := [115, 104, 99, 58, 47]

/-- Whether a failure exit is a failed `assert`.  A failed assertion ends the
process by `abort()`, which does not flush `stdout`; the other failure exits
call `exit(EXIT_FAILURE)`, which does. -/
def aborts : FormatError → Bool
  | .NonDigit => true
  | .InvalidEncoding => true
  | .NotAscii => true
  | _ => false

/-- How a run of `read_qr` ends: the bytes written to the stream `stdout`, the
error of the failure exit taken (`none` when the function returns), and whether
the way the process ends flushes the stream.  A return to `main` and `exit` do;
after `abort()` what was written and not yet flushed is lost, so of `stdout`
only a beginning that depends on the buffering of the stream has left the
process (none of it when a short output goes to a pipe or a file). -/
structure Outcome where
  stdout : List Nat
  status : Option FormatError
  flushed : Bool
  deriving DecidableEq, Repr

/-- Whether `bytes` can be what has left the process on standard output when
the run ends as `o` says: all that was written when the stream is flushed, a
beginning of it otherwise. -/
def may_emit (o : Outcome) (bytes : List Nat) : Bool :=
  if o.flushed then bytes == o.stdout else bytes.isPrefixOf o.stdout

/-- The part of `read_qr` after the token check (main.c:185-187): header, line
break, payload.  The failure exits of the two stages lie in
`decode_qr_section_into_ascii` (failed assertions, base64 failure) and in
`read_jws_payload` (inflate failure). -/
def read_sections (base64_decode_block : Base64Decoder) (inflate : Inflater) (fp : FILE) :
    Outcome :=
  match read_jws_header base64_decode_block fp with
  | .error e => { stdout := [], status := some e, flushed := !aborts e }
  | .ok (header, fp1) =>
    match read_jws_payload base64_decode_block inflate fp1 with
    | .error e => { stdout := header ++ [10], status := some e, flushed := !aborts e }
    | .ok (payload, _) =>
      { stdout := header ++ [10] ++ payload, status := none, flushed := true }

/-- The function `read_qr` (main.c:178-188).  Both failure exits of the token
check call `exit`. -/
def read_qr (base64_decode_block : Base64Decoder) (inflate : Inflater) (fp : FILE) : Outcome :=
  match scan_token fp shc_token with
  | .error e => { stdout := [], status := some e, flushed := true }
  | .ok (false, _) => { stdout := [], status := some .BadPrefix, flushed := true }
  | .ok (true, fp1) => read_sections base64_decode_block inflate fp1

/-! ## The encoding side, as the specification describes it -/

/-- The character of the base64 alphabet for a 6-bit value: the URL-safe
alphabet of RFC 4648 section 5 when `url` is set, the standard one otherwise. -/
def b64_char (url : Bool) (v : Nat) : Nat :=
  if v < 26 then 65 + v
  else if v < 52 then 97 + (v - 26)
  else if v < 62 then 48 + (v - 52)
  else if v = 62 then (if url then 45 else 43)
  else (if url then 95 else 47)

/-- The 6-bit groups of a byte sequence, most significant bits first, the last
group filled up with zero bits (RFC 4648 section 4). -/
def b64_sextets : List Nat → List Nat
  | [] => []
  | [x] => [x / 4, x % 4 * 16]
  | [x, y] => [x / 4, x % 4 * 16 + y / 16, y % 16 * 4]
  | x :: y :: z :: rest =>
    x / 4 :: (x % 4 * 16 + y / 16) :: (y % 16 * 4 + z / 64) :: z % 64 :: b64_sextets rest

/-- The number of `=` characters that pad the base64 text of `n` bytes to a
multiple of four characters. -/
def b64_pad_count (n : Nat) : Nat := (3 - n % 3) % 3

/-- Base64 text of a byte sequence (RFC 4648): with `=` padding when `pad` is
set, without it (as a JWS segment carries it) otherwise. -/
def b64_encode (url pad : Bool) (bytes : List Nat) : List Nat :=
  (b64_sextets bytes).map (b64_char url) ++
    (if pad then List.replicate (b64_pad_count bytes.length) 61 else [])

/-- The digit pair of one character: the two decimal digits of `c - 45`. -/
def qr_digits (c : Nat) : List Nat :=
  [48 + (c - 45) / 10, 48 + (c - 45) % 10]

/-- The digit-pair text of a character sequence. -/
def qr_encode (chars : List Nat) : List Nat :=
  (chars.map qr_digits).flatten

/-- The delimiter pair `"01"`, of value 46. -/
def qr_delimiter : List Nat := [48, 49]

/-- The character the specification assigns to a digit pair (section 4.1):
`value = 45 + 10*(a-'0') + (b-'0')`, with 45 turned into `'+'`, 95 into `'/'`
and every other value kept. -/
def spec_char (p : Nat × Nat) : Nat :=
  let value := 45 + (10 * (p.1 - 48) + (p.2 - 48))
  if value = 45 then 43 else if value = 95 then 47 else value

/-- A pair of ASCII digits whose value is neither the delimiter 46 nor above
127. -/
def ValidPair (p : Nat × Nat) : Prop :=
  (48 ≤ p.1 ∧ p.1 ≤ 57) ∧ (48 ≤ p.2 ∧ p.2 ≤ 57) ∧
    45 + (10 * (p.1 - 48) + (p.2 - 48)) ≠ 46 ∧ 45 + (10 * (p.1 - 48) + (p.2 - 48)) ≤ 127

instance (p : Nat × Nat) : Decidable (ValidPair p) := by
  unfold ValidPair; infer_instance

/-- The input text of a sequence of pairs. -/
def pairs_text (ps : List (Nat × Nat)) : List Nat :=
  (ps.map (fun p => [p.1, p.2])).flatten

/-- Modelled from the spec: the value of a character of the standard base64
alphabet, for the Base64Decoder of section 4.2 (the routine of `b64/cdecode.h`
is not part of the repository). -/
def spec_b64_value (c : Nat) : Option Nat :=
  if 65 ≤ c ∧ c ≤ 90 then some (c - 65)
  else if 97 ≤ c ∧ c ≤ 122 then some (c - 71)
  else if 48 ≤ c ∧ c ≤ 57 then some (c + 4)
  else if c = 43 then some 62
  else if c = 47 then some 63
  else none

/-- Modelled from the spec: the bytes held by a sequence of 6-bit values
(section 4.2): every four values give three bytes, a remainder of two or three
values gives one or two bytes, a remainder of a single value is malformed. -/
def spec_b64_bytes : List Nat → Option (List Nat)
  | [] => some []
  | [_] => none
  | [s0, s1] => some [s0 * 4 + s1 / 16]
  | [s0, s1, s2] => some [s0 * 4 + s1 / 16, s1 % 16 * 16 + s2 / 4]
  | s0 :: s1 :: s2 :: s3 :: rest =>
    (spec_b64_bytes rest).map
      (fun tl => (s0 * 4 + s1 / 16) :: (s1 % 16 * 16 + s2 / 4) :: (s2 % 4 * 64 + s3) :: tl)

/-- Modelled from the spec: the text without its trailing `=` padding
(section 4.2). Text without padding is accepted as it is; padding must be one
or two characters that fill the text up to a multiple of four. -/
def spec_strip_padding (code_in : List Nat) : Option (List Nat) :=
  let body := code_in.rdropWhile (fun c => c == 61)
  let pad := code_in.length - body.length
  if pad = 0 then some body
  else if code_in.length % 4 = 0 ∧ pad ≤ 2 then some body
  else none

/-- Modelled from the spec: the Base64Decoder of section 4.2, standing for the
routine `base64_decode_block` of `b64/cdecode.h`, which is not part of the
repository. A character outside the standard alphabet, incorrect padding or a
malformed length makes the decoding fail. -/
def spec_base64_decode_block (code_in : List Nat) : Option (List Nat) :=
  (spec_strip_padding code_in).bind
    (fun body => (body.mapM spec_b64_value).bind spec_b64_bytes)

/-- The contract of a base64 decoder on well-formed input: the standard base64
text of a byte sequence, padded or not as `pad` says, is decoded to that byte
sequence. -/
def DecodesBase64 (pad : Bool) (dec : Base64Decoder) : Prop :=
  ∀ bytes : List Nat, (∀ b ∈ bytes, b < 256) → dec (b64_encode false pad bytes) = some bytes

/-- The digit pair of one character as a pair. -/
def qr_pair (c : Nat) : Nat × Nat :=
  (48 + (c - 45) / 10, 48 + (c - 45) % 10)

/-- Byte `k` of the first `n` bytes of `buf`, read as zero from index `n` on. -/
def padded_byte (buf : List Nat) (n k : Nat) : Nat :=
  if k < n then buf.getD k 0 else 0

/-- Modelled from the spec: the blocks of a raw DEFLATE stream of stored blocks
(RFC 1951, section 3.2.4): a header byte whose lowest bit marks the final block
and whose next two bits are the block type 00, the length and its complement
as 16-bit little-endian numbers, then the bytes themselves. Input after the
final block is not looked at. -/
def stored_blocks : Nat → List Nat → Option (List Nat)
  | 0, _ => none
  | fuel + 1, hdr :: l0 :: l1 :: n0 :: n1 :: rest =>
    let len := l0 + 256 * l1
    if hdr / 2 % 4 ≠ 0 then none
    else if l0 + 256 * l1 + (n0 + 256 * n1) ≠ 65535 then none
    else if rest.length < len then none
    else if hdr % 2 = 1 then some (rest.take len)
    else (stored_blocks fuel (rest.drop len)).map (fun tl => rest.take len ++ tl)
  | _ + 1, _ => none

/-- Modelled from the spec: the RawInflater of section 4.4 on streams of stored
blocks, standing for zlib's `inflate` (not part of the repository) in the
examples: it fails on a malformed stream and when the output space is
exhausted. A stream with a compressed block is outside its domain and is
answered with `none` as well. -/
def stored_inflate : Inflater := fun next_in avail_out =>
  match stored_blocks next_in.length next_in with
  | none => none
  | some written => if written.length ≤ avail_out then some written else none

/-- The characters of the standard base64 alphabet: `'A'-'Z'`, `'a'-'z'`,
`'0'-'9'`, `'+'` and `'/'`. -/
def is_b64_char (c : Nat) : Bool :=
  decide ((65 ≤ c ∧ c ≤ 90) ∨ (97 ≤ c ∧ c ≤ 122) ∨ (48 ≤ c ∧ c ≤ 57) ∨ c = 43 ∨ c = 47)

/-- Modelled from the spec: a position in the compressed input of the
RawInflater (section 4.4): the bytes from the current one on and the index, 0
to 7, of the next bit of the first of them. Bits are taken from the least
significant end of each byte (RFC 1951, section 3.1.1). -/
structure BitReader where
  bytes : List Nat
  bit : Nat
  deriving DecidableEq, Repr

/-- Modelled from the spec: the next bit of the compressed input. -/
def read_bit (r : BitReader) : Option (Nat × BitReader) :=
  match r with
  | ⟨[], _⟩ => none
  | ⟨b :: bs, k⟩ => some (b / 2 ^ k % 2, if k = 7 then ⟨bs, 0⟩ else ⟨b :: bs, k + 1⟩)

/-- Modelled from the spec: an integer of `n` bits, least significant bit
first. -/
def read_bits : Nat → BitReader → Option (Nat × BitReader)
  | 0, r => some (0, r)
  | n + 1, r =>
    match read_bit r with
    | none => none
    | some (b, r1) =>
      match read_bits n r1 with
      | none => none
      | some (v, r2) => some (b + 2 * v, r2)

/-- Modelled from the spec: a canonical Huffman code (RFC 1951, section 3.2.2):
`count` holds the number of symbols of each code length, `symbol` the symbols
ordered by code length and, within one length, by value. -/
structure Huffman where
  count : List Nat
  symbol : List Nat
  deriving DecidableEq, Repr

/-- Modelled from the spec: the canonical Huffman code given by the code length
of every symbol, length 0 marking an unused symbol. -/
def huffman_of_lengths (lengths : List Nat) : Huffman :=
  { count := (List.range 16).map (fun l => lengths.count l),
    symbol := ((List.range 15).map (fun l =>
      (List.range lengths.length).filter (fun s => lengths.getD s 0 == l + 1))).flatten }

/-- Modelled from the spec: decoding one symbol, bit by bit. `len` is the
length of the code read so far plus one, `first` the first code of that length
and `index` the position of its symbol in `symbol`. -/
def huffman_decode_loop (h : Huffman) : Nat → Nat → Nat → Nat → Nat → BitReader →
    Option (Nat × BitReader)
  | 0, _, _, _, _, _ => none
  | k + 1, len, code, first, index, r =>
    match read_bit r with
    | none => none
    | some (b, r1) =>
      if code + b < first + h.count.getD len 0 then
        some (h.symbol.getD (index + (code + b - first)) 0, r1)
      else
        huffman_decode_loop h k (len + 1) ((code + b) * 2) ((first + h.count.getD len 0) * 2)
          (index + h.count.getD len 0) r1

/-- Modelled from the spec: the next symbol of a Huffman code of at most 15
bits. -/
def huffman_decode (h : Huffman) (r : BitReader) : Option (Nat × BitReader) :=
  huffman_decode_loop h 15 1 0 0 0 r

/-- Modelled from the spec: the fixed literal/length code (RFC 1951, section
3.2.6). -/
def fixed_length_code : Huffman :=
  huffman_of_lengths (List.replicate 144 8 ++ List.replicate 112 9 ++ List.replicate 24 7 ++
    List.replicate 8 8)

/-- Modelled from the spec: the fixed distance code (RFC 1951, section
3.2.6). -/
def fixed_distance_code : Huffman :=
  huffman_of_lengths (List.replicate 30 5)

/-- Modelled from the spec: for the length symbols 257 to 285, in this order,
the base match length and the number of extra bits (RFC 1951, section
3.2.5). -/
def length_codes : List (Nat × Nat) :=
  [(3, 0), (4, 0), (5, 0), (6, 0), (7, 0), (8, 0), (9, 0), (10, 0), (11, 1), (13, 1), (15, 1),
    (17, 1), (19, 2), (23, 2), (27, 2), (31, 2), (35, 3), (43, 3), (51, 3), (59, 3), (67, 4),
    (83, 4), (99, 4), (115, 4), (131, 5), (163, 5), (195, 5), (227, 5), (258, 0)]

/-- Modelled from the spec: for the distance symbols 0 to 29, in this order,
the base distance and the number of extra bits (RFC 1951, section 3.2.5). -/
def distance_codes : List (Nat × Nat) :=
  [(1, 0), (2, 0), (3, 0), (4, 0), (5, 1), (7, 1), (9, 2), (13, 2), (17, 3), (25, 3), (33, 4),
    (49, 4), (65, 5), (97, 5), (129, 6), (193, 6), (257, 7), (385, 7), (513, 8), (769, 8),
    (1025, 9), (1537, 9), (2049, 10), (3073, 10), (4097, 11), (6145, 11), (8193, 12),
    (12289, 12), (16385, 13), (24577, 13)]

/-- Modelled from the spec: copying a match of `n` bytes that starts `dist`
bytes back in the output; the match may run into the bytes it produces. -/
def copy_match : Nat → Nat → List Nat → List Nat
  | 0, _, out => out
  | n + 1, dist, out => copy_match n dist (out ++ [out.getD (out.length - dist) 0])

/-- Modelled from the spec: the symbols of a compressed block up to its
end-of-block symbol 256 (RFC 1951, section 3.2.3). -/
def inflate_codes (lencode distcode : Huffman) : Nat → BitReader → List Nat →
    Option (List Nat × BitReader)
  | 0, _, _ => none
  | fuel + 1, r, out =>
    match huffman_decode lencode r with
    | none => none
    | some (sym, r1) =>
      if sym < 256 then inflate_codes lencode distcode fuel r1 (out ++ [sym])
      else if sym = 256 then some (out, r1)
      else if 285 < sym then none
      else
        match read_bits (length_codes.getD (sym - 257) (0, 0)).2 r1 with
        | none => none
        | some (lbits, r2) =>
          match huffman_decode distcode r2 with
          | none => none
          | some (dsym, r3) =>
            if 29 < dsym then none
            else
              match read_bits (distance_codes.getD dsym (0, 0)).2 r3 with
              | none => none
              | some (dbits, r4) =>
                if out.length < (distance_codes.getD dsym (0, 0)).1 + dbits then none
                else
                  inflate_codes lencode distcode fuel r4
                    (copy_match ((length_codes.getD (sym - 257) (0, 0)).1 + lbits)
                      ((distance_codes.getD dsym (0, 0)).1 + dbits) out)

/-- Modelled from the spec: a stored block (RFC 1951, section 3.2.4): the rest
of the current byte is skipped, then come the length, its complement and the
bytes themselves. -/
def inflate_stored (r : BitReader) (out : List Nat) : Option (List Nat × BitReader) :=
  match (if r.bit = 0 then r.bytes else r.bytes.tail) with
  | l0 :: l1 :: n0 :: n1 :: rest =>
    if l0 + 256 * l1 + (n0 + 256 * n1) ≠ 65535 then none
    else if rest.length < l0 + 256 * l1 then none
    else some (out ++ rest.take (l0 + 256 * l1), ⟨rest.drop (l0 + 256 * l1), 0⟩)
  | _ => none

/-- Modelled from the spec: the order in which the lengths of the code length
code are stored (RFC 1951, section 3.2.7). -/
def code_length_order : List Nat :=
  [16, 17, 18, 0] ++ [8, 7, 9, 6, 10, 5, 11, 4] ++ [12, 3, 13, 2, 14, 1, 15]

/-- Modelled from the spec: `n` integers of three bits each. -/
def read_triples : Nat → BitReader → Option (List Nat × BitReader)
  | 0, r => some ([], r)
  | n + 1, r =>
    match read_bits 3 r with
    | none => none
    | some (v, r1) =>
      match read_triples n r1 with
      | none => none
      | some (vs, r2) => some (v :: vs, r2)

/-- Modelled from the spec: the `total` code lengths of a dynamic block, coded
with the code length code; symbols 16, 17 and 18 repeat the previous length or
zero (RFC 1951, section 3.2.7). -/
def read_lengths (h : Huffman) (total : Nat) : Nat → BitReader → List Nat →
    Option (List Nat × BitReader)
  | 0, _, _ => none
  | fuel + 1, r, acc =>
    if total ≤ acc.length then (if acc.length = total then some (acc, r) else none)
    else
      match huffman_decode h r with
      | none => none
      | some (sym, r1) =>
        if sym < 16 then read_lengths h total fuel r1 (acc ++ [sym])
        else if sym = 16 then
          if acc = [] then none
          else
            match read_bits 2 r1 with
            | none => none
            | some (n, r2) =>
              read_lengths h total fuel r2 (acc ++ List.replicate (3 + n) (acc.getLastD 0))
        else if sym = 17 then
          match read_bits 3 r1 with
          | none => none
          | some (n, r2) => read_lengths h total fuel r2 (acc ++ List.replicate (3 + n) 0)
        else
          match read_bits 7 r1 with
          | none => none
          | some (n, r2) => read_lengths h total fuel r2 (acc ++ List.replicate (11 + n) 0)

/-- Modelled from the spec: the two Huffman codes that open a dynamic block
(RFC 1951, section 3.2.7). -/
def read_dynamic_codes (r : BitReader) : Option (Huffman × Huffman × BitReader) :=
  match read_bits 5 r with
  | none => none
  | some (hlit, r1) =>
    match read_bits 5 r1 with
    | none => none
    | some (hdist, r2) =>
      match read_bits 4 r2 with
      | none => none
      | some (hclen, r3) =>
        if 286 < hlit + 257 ∨ 30 < hdist + 1 then none
        else
          match read_triples (hclen + 4) r3 with
          | none => none
          | some (vs, r4) =>
            match read_lengths
                (huffman_of_lengths
                  ((List.range 19).map (fun s => vs.getD (code_length_order.indexOf s) 0)))
                (hlit + 257 + (hdist + 1)) (hlit + 257 + (hdist + 1) + 1) r4 [] with
            | none => none
            | some (lens, r5) =>
              if lens.getD 256 0 = 0 then none
              else
                some (huffman_of_lengths (lens.take (hlit + 257)),
                  huffman_of_lengths (lens.drop (hlit + 257)), r5)

/-- Modelled from the spec: the blocks of a raw DEFLATE stream up to the block
marked final (RFC 1951, section 3.2.3); `bits` bounds the number of symbols of
a block. -/
def inflate_blocks (bits : Nat) : Nat → BitReader → List Nat → Option (List Nat)
  | 0, _, _ => none
  | fuel + 1, r, out =>
    match read_bits 1 r with
    | none => none
    | some (final, r1) =>
      match read_bits 2 r1 with
      | none => none
      | some (type, r2) =>
        match (if type = 0 then inflate_stored r2 out
            else if type = 1 then inflate_codes fixed_length_code fixed_distance_code bits r2 out
            else if type = 2 then
              match read_dynamic_codes r2 with
              | none => none
              | some (lencode, distcode, r3) => inflate_codes lencode distcode bits r3 out
            else none) with
        | none => none
        | some (out1, r3) => if final = 1 then some out1 else inflate_blocks bits fuel r3 out1

/-- Modelled from the spec: the RawInflater of section 4.4 for raw DEFLATE
streams of stored, fixed and dynamic blocks, standing for zlib's `inflate`
called with `Z_FINISH` (not part of the repository): the bytes of the stream
when it is well-formed, ends with a final block and fits the output space.
Input after the final block is not looked at. -/
def rfc1951_inflate : Inflater := fun next_in avail_out =>
  match inflate_blocks (8 * next_in.length) (next_in.length + 1) ⟨next_in, 0⟩ [] with
  | none => none
  | some written => if written.length ≤ avail_out then some written else none

/-- The stream `c` is a raw DEFLATE compression of `P` for the inflater: the
inflater reproduces `P` from `c`, whatever input follows the final block,
whenever the output space holds `P`, and fails when it does not. -/
def RawDeflateOf (inflate : Inflater) (c P : List Nat) : Prop :=
  ∀ (t : List Nat) (cap : Nat), inflate (c ++ t) cap = if P.length ≤ cap then some P else none

/-- The bytes of the header `{"alg":"ES256"}`. -/
def header_json : List Nat :=
  [123, 34, 97, 108, 103, 34, 58, 34, 69, 83, 50, 53, 54, 34, 125]

/-- The characters of the base64 text `eyJhbGciOiJFUzI1NiJ9`. -/
def header_text : List Nat :=
  [101, 121, 74, 104, 98, 71, 99, 105, 79, 105, 74, 70, 85, 122, 73, 49, 78, 105, 74, 57]

/-- The bytes of the payload `{"iss":"https://example.org"}`. -/
def payload_json : List Nat :=
  [123, 34, 105, 115, 115, 34, 58, 34, 104, 116, 116, 112, 115, 58, 47, 47, 101, 120, 97, 109,
    112, 108, 101, 46, 111, 114, 103, 34, 125]

/-- A raw DEFLATE stream of `payload_json`: one final block with the fixed
Huffman codes, as zlib's `deflate` writes it. -/
def payload_stream : List Nat :=
  [171, 86, 202, 44, 46, 86, 178, 82, 202, 40, 41, 41, 40, 182, 210, 215, 79, 173, 72, 204, 45,
    200, 73, 213, 203, 47, 74, 87, 170, 5, 0]

/-- The text of a card: the token, the digit pairs of the base64url text of the
header bytes, the delimiter pair and the digit pairs of the base64url text of
the payload bytes. -/
def card_text (pad : Bool) (header payload : List Nat) : List Nat :=
  shc_token ++ qr_encode (b64_encode true pad header) ++ qr_delimiter ++
    qr_encode (b64_encode true pad payload)

/-! ## The transcoder on well-formed pairs -/

theorem read_pair_cons (sz a b : Nat) (rest : List Nat) :
    read_pair ⟨sz, a :: b :: rest⟩ = (true, ⟨(a : Int), (b : Int)⟩, ⟨sz, rest⟩) := by
  simp only [read_pair, fgetc, EOF]
  have ha : ((a : Int) ≠ -1) := by omega
  have hb : ((b : Int) ≠ -1) := by omega
  simp [ha, hb]

theorem read_pair_nil (sz : Nat) :
    read_pair ⟨sz, []⟩ = (false, ⟨EOF, EOF⟩, ⟨sz, []⟩) := by
  simp [read_pair, fgetc, EOF]

theorem read_pair_single (sz a : Nat) :
    read_pair ⟨sz, [a]⟩ = (false, ⟨(a : Int), EOF⟩, ⟨sz, []⟩) := by
  simp [read_pair, fgetc, EOF]

theorem decode_pair_valid (p : Nat × Nat) (h : ValidPair p) :
    decode_pair ⟨(p.1 : Int), (p.2 : Int)⟩ = .ok (some (spec_char p)) := by
  obtain ⟨⟨h1, h2⟩, ⟨h3, h4⟩, h5, h6⟩ := h
  simp only [decode_pair, pair_value, isdigit, isascii, spec_char]
  have e1 : (decide (48 ≤ (p.1 : Int) ∧ (p.1 : Int) ≤ 57) = true ∧
      decide (48 ≤ (p.2 : Int) ∧ (p.2 : Int) ≤ 57) = true) := by
    constructor <;> simp <;> omega
  rw [if_neg (not_not.mpr e1)]
  have e2 : (9 - (57 - (p.1 : Int)) < 10 ∧ 9 - (57 - (p.2 : Int)) < 10) := by omega
  rw [if_neg (not_not.mpr e2)]
  have e3 : decide (0 ≤ 45 + (10 * (9 - (57 - (p.1 : Int))) + (9 - (57 - (p.2 : Int)))) ∧
      45 + (10 * (9 - (57 - (p.1 : Int))) + (9 - (57 - (p.2 : Int)))) ≤ 127) = true := by
    simp; omega
  rw [if_neg (not_not.mpr e3)]
  have e4 : ¬ (45 + (10 * (9 - (57 - (p.1 : Int))) + (9 - (57 - (p.2 : Int)))) = 46) := by omega
  rw [if_neg e4]
  by_cases c1 : 45 + (10 * (p.1 - 48) + (p.2 - 48)) = 45
  · have : 45 + (10 * (9 - (57 - (p.1 : Int))) + (9 - (57 - (p.2 : Int)))) = 45 := by omega
    rw [if_pos this, if_pos c1]
  · have n1 : ¬ (45 + (10 * (9 - (57 - (p.1 : Int))) + (9 - (57 - (p.2 : Int)))) = 45) := by omega
    rw [if_neg n1, if_neg c1]
    by_cases c2 : 45 + (10 * (p.1 - 48) + (p.2 - 48)) = 95
    · have : 45 + (10 * (9 - (57 - (p.1 : Int))) + (9 - (57 - (p.2 : Int)))) = 95 := by omega
      rw [if_pos this, if_pos c2]
    · have n2 : ¬ (45 + (10 * (9 - (57 - (p.1 : Int))) + (9 - (57 - (p.2 : Int)))) = 95) := by
        omega
      rw [if_neg n2, if_neg c2]
      congr 2
      omega

theorem pairs_text_cons (p : Nat × Nat) (ps : List (Nat × Nat)) :
    pairs_text (p :: ps) = p.1 :: p.2 :: pairs_text ps := by
  simp [pairs_text]

theorem pairs_text_length (ps : List (Nat × Nat)) :
    (pairs_text ps).length = 2 * ps.length := by
  induction ps with
  | nil => simp [pairs_text]
  | cons p ps ih => rw [pairs_text_cons]; simp [ih]; omega

theorem pairs_text_append (ps qs : List (Nat × Nat)) :
    pairs_text (ps ++ qs) = pairs_text ps ++ pairs_text qs := by
  simp [pairs_text]

/-- Running the loop over well-formed pairs stores their characters and leaves
the loop at the text that follows them. -/
theorem transcode_loop_pairs (buf_size sz : Nat) (tail : List Nat) :
    ∀ (ps : List (Nat × Nat)) (fuel : Nat) (acc : List Nat),
      (∀ p ∈ ps, ValidPair p) → ps.length ≤ fuel → acc.length + ps.length ≤ buf_size →
      transcode_loop buf_size fuel ⟨sz, pairs_text ps ++ tail⟩ acc =
        transcode_loop buf_size (fuel - ps.length) ⟨sz, tail⟩ (acc ++ ps.map spec_char) := by
  intro ps
  induction ps with
  | nil => intro fuel acc _ _ _; simp [pairs_text]
  | cons p ps ih =>
    intro fuel acc hv hf hc
    obtain ⟨n, rfl⟩ : ∃ n, fuel = n + 1 := ⟨fuel - 1, by simp at hf; omega⟩
    have hlt : acc.length < buf_size := by simp at hc; omega
    rw [pairs_text_cons, transcode_loop, if_pos hlt]
    simp only [List.cons_append, read_pair_cons]
    rw [decode_pair_valid p (hv p (List.mem_cons_self _ _))]
    simp only
    rw [ih n (acc ++ [spec_char p]) (fun q hq => hv q (List.mem_cons_of_mem _ hq))
      (by simp at hf; omega) (by simp at hc ⊢; omega)]
    simp [Nat.add_sub_add_right]

theorem transcode_loop_eof (buf_size sz : Nat) (fuel : Nat) (acc : List Nat) :
    transcode_loop buf_size fuel ⟨sz, []⟩ acc = .ok (acc, ⟨sz, []⟩) := by
  cases fuel with
  | zero => rfl
  | succ n =>
    rw [transcode_loop]
    split
    · rw [read_pair_nil]
    · rfl

theorem transcode_loop_leftover (buf_size sz x : Nat) (fuel : Nat) (acc : List Nat)
    (hf : 0 < fuel) (hc : acc.length < buf_size) :
    transcode_loop buf_size fuel ⟨sz, [x]⟩ acc = .ok (acc, ⟨sz, []⟩) := by
  obtain ⟨n, rfl⟩ : ∃ n, fuel = n + 1 := ⟨fuel - 1, by omega⟩
  rw [transcode_loop, if_pos hc, read_pair_single]

theorem transcode_loop_delimiter (buf_size sz : Nat) (rest : List Nat) (fuel : Nat)
    (acc : List Nat) (hf : 0 < fuel) (hc : acc.length < buf_size) :
    transcode_loop buf_size fuel ⟨sz, qr_delimiter ++ rest⟩ acc = .ok (acc, ⟨sz, rest⟩) := by
  obtain ⟨n, rfl⟩ : ∃ n, fuel = n + 1 := ⟨fuel - 1, by omega⟩
  rw [transcode_loop, if_pos hc]
  simp only [qr_delimiter, List.cons_append, List.nil_append, read_pair_cons]
  rfl

theorem transcode_loop_error (buf_size sz a b : Nat) (rest : List Nat) (fuel : Nat)
    (acc : List Nat) (e : FormatError) (hf : 0 < fuel) (hc : acc.length < buf_size)
    (he : decode_pair ⟨(a : Int), (b : Int)⟩ = .error e) :
    transcode_loop buf_size fuel ⟨sz, a :: b :: rest⟩ acc = .error e := by
  obtain ⟨n, rfl⟩ : ∃ n, fuel = n + 1 := ⟨fuel - 1, by omega⟩
  rw [transcode_loop, if_pos hc]
  simp only [read_pair_cons]
  rw [he]

theorem decode_pair_nondigit (a b : Int) (h : ¬ ((48 ≤ a ∧ a ≤ 57) ∧ (48 ≤ b ∧ b ≤ 57))) :
    decode_pair ⟨a, b⟩ = .error .NonDigit := by
  simp only [decode_pair, isdigit]
  rw [if_pos]
  simpa using h

theorem decode_pair_not_ascii (a b : Int) (ha : 48 ≤ a ∧ a ≤ 57) (hb : 48 ≤ b ∧ b ≤ 57) :
    decode_pair ⟨a, b⟩ = .error .NotAscii ↔ 45 + (10 * (a - 48) + (b - 48)) > 127 := by
  simp only [decode_pair, isdigit, isascii, pair_value]
  have e1 : (decide (48 ≤ a ∧ a ≤ 57) = true ∧ decide (48 ≤ b ∧ b ≤ 57) = true) := by
    constructor <;> simp <;> omega
  rw [if_neg (not_not.mpr e1)]
  have e2 : (9 - (57 - a) < 10 ∧ 9 - (57 - b) < 10) := by omega
  rw [if_neg (not_not.mpr e2)]
  by_cases hv : 45 + (10 * (a - 48) + (b - 48)) > 127
  · have e3 : ¬ (decide (0 ≤ 45 + (10 * (9 - (57 - a)) + (9 - (57 - b))) ∧
        45 + (10 * (9 - (57 - a)) + (9 - (57 - b))) ≤ 127) = true) := by
      simp; omega
    rw [if_pos e3]
    simp [hv]
  · have e3 : decide (0 ≤ 45 + (10 * (9 - (57 - a)) + (9 - (57 - b))) ∧
        45 + (10 * (9 - (57 - a)) + (9 - (57 - b))) ≤ 127) = true := by
      simp; omega
    rw [if_neg (not_not.mpr e3)]
    constructor
    · intro h
      exfalso
      split at h
      · cases h
      · split at h
        · cases h
        · split at h <;> cases h
    · intro h; exact absurd h hv

/-- A character stored by the loop body is an ASCII value. -/
theorem decode_pair_some_le (pr : pair_t) (c : Nat) (h : decode_pair pr = .ok (some c)) :
    c ≤ 127 := by
  simp only [decode_pair, isdigit, isascii, pair_value] at h
  split at h
  · cases h
  · split at h
    · cases h
    · split at h
      · cases h
      · rename_i h3
        simp only [not_not, decide_eq_true_eq] at h3
        split at h
        · cases h
        · split at h
          · cases h; omega
          · split at h
            · cases h; omega
            · cases h; omega

/-- Every character the loop stores satisfies a property that the loop body
guarantees and that the characters stored before already have. -/
theorem transcode_loop_forall (P : Nat → Prop) (buf_size : Nat)
    (hP : ∀ pr c, decode_pair pr = .ok (some c) → P c) :
    ∀ (fuel : Nat) (fp : FILE) (acc out : List Nat) (fp1 : FILE),
      (∀ c ∈ acc, P c) → transcode_loop buf_size fuel fp acc = .ok (out, fp1) →
      ∀ c ∈ out, P c := by
  intro fuel
  induction fuel with
  | zero =>
    intro fp acc out fp1 hacc h
    simp only [transcode_loop] at h
    cases h; exact hacc
  | succ n ih =>
    intro fp acc out fp1 hacc h
    rw [transcode_loop] at h
    split at h
    · split at h
      · cases h; exact hacc
      · rename_i pr fp2 _
        split at h
        · cases h
        · cases h; exact hacc
        · rename_i c hc
          refine ih fp2 (acc ++ [c]) out fp1 ?_ h
          intro d hd
          rcases List.mem_append.mp hd with hd | hd
          · exact hacc d hd
          · simp only [List.mem_singleton] at hd
            subst hd; exact hP pr d hc
    · cases h; exact hacc

theorem pairs_text_drop (ps : List (Nat × Nat)) :
    ∀ k, pairs_text (ps.drop k) = (pairs_text ps).drop (2 * k) := by
  induction ps with
  | nil => intro k; simp [pairs_text]
  | cons p ps ih =>
    intro k
    cases k with
    | zero => simp
    | succ k =>
      rw [List.drop_succ_cons, ih k, pairs_text_cons]
      have : 2 * (k + 1) = (2 * k + 1) + 1 := by ring
      rw [this, List.drop_succ_cons, List.drop_succ_cons]

/-- The loop over well-formed pairs followed by any text, when the capacity is
used up by the pairs. -/
theorem transcode_loop_full (cap sz : Nat) (ps : List (Nat × Nat)) (tail : List Nat)
    (hv : ∀ p ∈ ps, ValidPair p) (hn : cap ≤ ps.length) :
    transcode_loop cap cap ⟨sz, pairs_text ps ++ tail⟩ [] =
      .ok ((ps.map spec_char).take cap, ⟨sz, pairs_text (ps.drop cap) ++ tail⟩) := by
  have hsplit : pairs_text ps ++ tail =
      pairs_text (ps.take cap) ++ (pairs_text (ps.drop cap) ++ tail) := by
    rw [← List.append_assoc, ← pairs_text_append, List.take_append_drop]
  have hlen : (ps.take cap).length = cap := by simp [hn]
  rw [hsplit, transcode_loop_pairs cap sz _ (ps.take cap) cap []
    (fun p hp => hv p (List.mem_of_mem_take hp)) (by omega) (by simp)]
  rw [hlen, Nat.sub_self, transcode_loop]
  simp [List.map_take]

/-- The loop over well-formed pairs followed by any text, when the pairs leave
capacity: the loop goes on with the text after the pairs. -/
theorem transcode_loop_room (cap sz : Nat) (ps : List (Nat × Nat)) (tail : List Nat)
    (hv : ∀ p ∈ ps, ValidPair p) (hn : ps.length < cap) :
    transcode_loop cap cap ⟨sz, pairs_text ps ++ tail⟩ [] =
      transcode_loop cap (cap - ps.length) ⟨sz, tail⟩ (ps.map spec_char) := by
  rw [transcode_loop_pairs cap sz _ ps cap [] hv (by omega) (by simp; omega)]
  simp

/-! ## What leaves the process on standard output -/

/-- When the run ends in a way that flushes the stream, what leaves the process
is what was written. -/
theorem may_emit_flushed (o : Outcome) (bytes : List Nat) (h : o.flushed = true) :
    may_emit o bytes = true ↔ bytes = o.stdout := by
  simp [may_emit, h]

/-- After a failed assertion the process may have emitted nothing of what was
written, and whatever it has emitted is a beginning of it. -/
theorem may_emit_aborted (o : Outcome) (bytes : List Nat) (h : o.flushed = false) :
    may_emit o [] = true ∧ (may_emit o bytes = true ↔ bytes <+: o.stdout) := by
  simp [may_emit, h]

/-! ## The token check -/

theorem strncmp_eq_iff : ∀ (n : Nat) (l t : List Nat), l.length = n → t.length = n →
    (∀ c ∈ t, c ≠ 0) → (strncmp_eq n l t = true ↔ l = t) := by
  intro n
  induction n with
  | zero =>
    intro l t hl ht _
    rw [List.length_eq_zero] at hl ht
    simp [hl, ht, strncmp_eq]
  | succ n ih =>
    intro l t hl ht hnz
    match l, t, hl, ht with
    | x :: xs, y :: ys, hl, ht =>
      have hy : y ≠ 0 := hnz y (List.mem_cons_self _ _)
      have hrec := ih xs ys (by simpa using hl) (by simpa using ht)
        (fun c hc => hnz c (List.mem_cons_of_mem _ hc))
      simp only [strncmp_eq, List.headD_cons, List.tail_cons]
      by_cases hxy : x = y
      · subst hxy
        simp only [ne_eq, not_true_eq_false, if_false, if_neg hy, hrec, List.cons.injEq,
          true_and]
      · simp [hxy]

theorem strncmp_eq_token (l : List Nat) (hl : l.length = 5) :
    strncmp_eq 5 l shc_token = true ↔ l = shc_token :=
  strncmp_eq_iff 5 l shc_token hl (by decide) (by decide)

theorem strlen_token : strlen shc_token = 5 := by decide

theorem scan_token_short (content : List Nat) (h : content.length < 5) :
    scan_token (fopen content) shc_token = .error .ReadFailed := by
  simp only [scan_token, strlen_token, fread, fopen]
  rw [if_pos]
  simp; omega

theorem scan_token_long (content : List Nat) (h : 5 ≤ content.length) :
    scan_token (fopen content) shc_token =
      .ok (decide (content.take 5 = shc_token), ⟨content.length, content.drop 5⟩) := by
  simp only [scan_token, strlen_token, fread, fopen]
  have hl : (content.take 5).length = 5 := by simp; omega
  rw [if_neg (by simp; omega)]
  congr 2
  rw [Bool.eq_iff_iff, strncmp_eq_token _ hl]
  simp

/-! ## The output loop -/

theorem emit_loop_eq (inf_buf : List Nat) (inf_size : Nat) (hlen : inf_buf.length = inf_size) :
    ∀ (fuel i : Nat) (out : List Nat), inf_size ≤ i + fuel →
      emit_loop inf_buf inf_size fuel i out =
        out ++ (inf_buf.drop i).takeWhile (fun c => c != 0) := by
  intro fuel
  induction fuel with
  | zero =>
    intro i out h
    rw [emit_loop, List.drop_of_length_le (by omega)]
    simp
  | succ n ih =>
    intro i out h
    rw [emit_loop]
    by_cases hi : i < inf_size
    · rw [if_pos hi]
      have hi2 : i < inf_buf.length := by omega
      rw [List.drop_eq_getElem_cons hi2, List.getD_eq_getElem _ _ hi2]
      by_cases hz : inf_buf[i] = 0
      · rw [if_pos hz, List.takeWhile_cons, hz]
        simp
      · rw [if_neg hz, ih (i + 1) _ (by omega), List.takeWhile_cons]
        simp [hz]
    · rw [if_neg hi, List.drop_of_length_le (by omega)]
      simp

theorem takeWhile_append_zeros (d : List Nat) (k : Nat) :
    (d ++ List.replicate k 0).takeWhile (fun c => c != 0) =
      d.takeWhile (fun c => c != 0) := by
  induction d with
  | nil => cases k <;> simp [List.replicate_succ]
  | cons x xs ih =>
    rw [List.cons_append, List.takeWhile_cons, List.takeWhile_cons, ih]

theorem emit_payload_eq (d : List Nat) (inf_size : Nat) (h : d.length ≤ inf_size) :
    emit_payload (d ++ List.replicate (inf_size - d.length) 0) inf_size =
      d.takeWhile (fun c => c != 0) := by
  rw [emit_payload, emit_loop_eq _ inf_size (by simp; omega) inf_size 0 [] (by omega)]
  simp [takeWhile_append_zeros]

/-! ## The packing loop -/

theorem or_bytes (a b c d : Nat) (ha : a < 256) (hb : b < 256) (hc : c < 256) (hd : d < 256) :
    ((d <<< 24) ||| (c <<< 16) ||| (b <<< 8) ||| a) % 2 ^ 32 =
      a + 2 ^ 8 * b + 2 ^ 16 * c + 2 ^ 24 * d := by
  have k1 : 2 ^ 16 * c < 2 ^ 24 := by omega
  have k2 : 2 ^ 8 * b < 2 ^ 16 := by omega
  have k3 : a < 2 ^ 8 := by omega
  have h1 : (d <<< 24) ||| (c <<< 16) = 2 ^ 16 * (2 ^ 8 * d + c) := by
    have h := @Nat.mul_add_lt_is_or 24 (2 ^ 16 * c) k1 d
    rw [Nat.shiftLeft_eq, Nat.shiftLeft_eq, Nat.mul_comm d, Nat.mul_comm c, ← h]
    omega
  have h2 : 2 ^ 16 * (2 ^ 8 * d + c) ||| (b <<< 8) = 2 ^ 8 * (2 ^ 16 * d + 2 ^ 8 * c + b) := by
    have h := @Nat.mul_add_lt_is_or 16 (2 ^ 8 * b) k2 (2 ^ 8 * d + c)
    rw [Nat.shiftLeft_eq, Nat.mul_comm b, ← h]
    omega
  have h3 : 2 ^ 8 * (2 ^ 16 * d + 2 ^ 8 * c + b) ||| a =
      2 ^ 8 * (2 ^ 16 * d + 2 ^ 8 * c + b) + a := by
    have h := @Nat.mul_add_lt_is_or 8 a k3 (2 ^ 16 * d + 2 ^ 8 * c + b)
    rw [← h]
  rw [h1, h2, h3, Nat.mod_eq_of_lt (by omega)]
  omega

theorem getD_lt_256 (buf : List Nat) (hb : ∀ b ∈ buf, b < 256) (k : Nat) :
    buf.getD k 0 < 256 := by
  by_cases hk : k < buf.length
  · rw [List.getD_eq_getElem _ _ hk]
    exact hb _ (List.getElem_mem _)
  · rw [List.getD_eq_default _ _ (by omega)]
    omega

theorem pack_word_eq (buf : List Nat) (n i : Nat) (hb : ∀ b ∈ buf, b < 256) (hi : i < n) :
    pack_word buf n i =
      padded_byte buf n i + 2 ^ 8 * padded_byte buf n (i + 1) +
        2 ^ 16 * padded_byte buf n (i + 2) + 2 ^ 24 * padded_byte buf n (i + 3) := by
  have hlt := getD_lt_256 buf hb
  have hmod : ∀ k, buf.getD k 0 % 256 = buf.getD k 0 := fun k => Nat.mod_eq_of_lt (hlt k)
  have hp : ∀ k, (if k < n then buf.getD k 0 % 256 else 0) = padded_byte buf n k := by
    intro k; simp only [padded_byte, hmod]
  have hp0 : buf.getD (i + 0) 0 % 256 = padded_byte buf n i := by
    simp only [padded_byte, if_pos hi, hmod, Nat.add_zero]
  have hpl : ∀ k, padded_byte buf n k < 256 := by
    intro k; simp only [padded_byte]; split
    · exact hlt k
    · omega
  simp only [pack_word, hp, hp0]
  exact or_bytes _ _ _ _ (hpl _) (hpl _) (hpl _) (hpl _)

theorem pack_loop_eq (buf : List Nat) (n : Nat) :
    ∀ (fuel i : Nat) (wide : List Nat), n ≤ i + 4 * fuel →
      pack_loop buf n fuel i wide =
        wide ++ (List.range ((n + 3 - i) / 4)).map (fun j => pack_word buf n (i + 4 * j)) := by
  intro fuel
  induction fuel with
  | zero =>
    intro i wide h
    have : (n + 3 - i) / 4 = 0 := by omega
    rw [pack_loop, this, List.range_zero, List.map_nil, List.append_nil]
  | succ m ih =>
    intro i wide h
    rw [pack_loop]
    by_cases hi : i < n
    · rw [if_pos hi, ih (i + 4) _ (by omega)]
      have hk : (n + 3 - i) / 4 = (n + 3 - (i + 4)) / 4 + 1 := by omega
      have hfun : ((fun j => pack_word buf n (i + 4 * j)) ∘ Nat.succ) =
          (fun j => pack_word buf n (i + 4 + 4 * j)) := by
        funext j
        simp only [Function.comp]
        rw [show i + 4 * Nat.succ j = i + 4 + 4 * j by omega]
      rw [hk, List.range_succ_eq_map, List.map_cons, List.map_map, List.append_assoc, hfun,
        List.singleton_append]
      simp only [Nat.mul_zero, Nat.add_zero]
    · have : (n + 3 - i) / 4 = 0 := by omega
      rw [if_neg hi, this, List.range_zero, List.map_nil, List.append_nil]

theorem pack_words_eq (buf : List Nat) (n : Nat) :
    pack_words buf n = (List.range ((n + 3) / 4)).map (fun j => pack_word buf n (4 * j)) := by
  rw [pack_words, pack_loop_eq buf n n 0 [] (by omega), List.nil_append, Nat.sub_zero]
  simp only [Nat.zero_add]

theorem le_bytes_sum (a b c d : Nat) (ha : a < 256) (hb : b < 256) (hc : c < 256)
    (hd : d < 256) : le_bytes (a + 2 ^ 8 * b + 2 ^ 16 * c + 2 ^ 24 * d) = [a, b, c, d] := by
  simp only [le_bytes, List.cons.injEq, and_true]
  refine ⟨?_, ?_, ?_, ?_⟩ <;> omega

theorem padded_byte_lt (buf : List Nat) (n : Nat) (hb : ∀ b ∈ buf, b < 256) (k : Nat) :
    padded_byte buf n k < 256 := by
  simp only [padded_byte]
  split
  · exact getD_lt_256 buf hb k
  · omega

theorem padded_getD (buf : List Nat) (n p : Nat) (hn : n ≤ buf.length) (k : Nat) :
    (buf.take n ++ List.replicate p 0).getD k 0 = padded_byte buf n k := by
  have hl : (buf.take n).length = n := by simp [hn]
  by_cases hk : k < n
  · rw [List.getD_append _ _ _ _ (by omega), padded_byte, if_pos hk,
      List.getD_eq_getElem _ _ (by omega), List.getD_eq_getElem _ _ (by omega),
      List.getElem_take]
  · rw [List.getD_append_right _ _ _ _ (by omega), padded_byte, if_neg hk]
    by_cases hp : k - (buf.take n).length < (List.replicate p 0).length
    · rw [List.getD_eq_getElem _ _ hp, List.getElem_replicate]
    · rw [List.getD_eq_default _ _ (by omega)]

theorem take_add_four (l : List Nat) (m : Nat) (h : m + 4 ≤ l.length) :
    l.take (m + 4) =
      l.take m ++ [l.getD m 0, l.getD (m + 1) 0, l.getD (m + 2) 0, l.getD (m + 3) 0] := by
  have h0 : m < l.length := by omega
  have h1 : m + 1 < l.length := by omega
  have h2 : m + 1 + 1 < l.length := by omega
  have h3 : m + 1 + 1 + 1 < l.length := by omega
  rw [List.take_add, List.drop_eq_getElem_cons h0, List.drop_eq_getElem_cons h1,
    List.drop_eq_getElem_cons h2, List.drop_eq_getElem_cons h3,
    List.getD_eq_getElem _ _ h0, List.getD_eq_getElem _ _ h1,
    List.getD_eq_getElem l 0 (show m + 2 < l.length by omega),
    List.getD_eq_getElem l 0 (show m + 3 < l.length by omega)]
  rfl

theorem wide_bytes_snoc (ws : List Nat) (w : Nat) :
    wide_bytes (ws ++ [w]) = wide_bytes ws ++ le_bytes w := by
  simp [wide_bytes]

theorem wide_bytes_range (buf : List Nat) (n : Nat) (hn : n ≤ buf.length)
    (hb : ∀ b ∈ buf, b < 256) :
    ∀ k, k ≤ (n + 3) / 4 →
      wide_bytes ((List.range k).map (fun j => pack_word buf n (4 * j))) =
        (buf.take n ++ List.replicate ((4 - n % 4) % 4) 0).take (4 * k) := by
  intro k
  induction k with
  | zero => intro _; simp [wide_bytes]
  | succ k ih =>
    intro hk
    have hlen : (buf.take n ++ List.replicate ((4 - n % 4) % 4) 0).length = 4 * ((n + 3) / 4) := by
      rw [List.length_append, List.length_take, List.length_replicate, Nat.min_eq_left hn]
      omega
    rw [List.range_succ, List.map_append, List.map_singleton, wide_bytes_snoc, ih (by omega),
      pack_word_eq buf n (4 * k) hb (by omega),
      le_bytes_sum _ _ _ _ (padded_byte_lt buf n hb _) (padded_byte_lt buf n hb _)
        (padded_byte_lt buf n hb _) (padded_byte_lt buf n hb _),
      show 4 * (k + 1) = 4 * k + 4 by ring, take_add_four _ (4 * k) (by omega),
      padded_getD buf n _ hn, padded_getD buf n _ hn, padded_getD buf n _ hn,
      padded_getD buf n _ hn]

/-! ## Base64 text and its digit pairs -/

theorem b64_sextets_lt : ∀ (bytes : List Nat), (∀ b ∈ bytes, b < 256) →
    ∀ v ∈ b64_sextets bytes, v < 64
  | [], _, v, hv => by simp [b64_sextets] at hv
  | [x], hb, v, hv => by
    have hx : x < 256 := hb x (by simp)
    simp only [b64_sextets, List.mem_cons, List.mem_singleton, List.not_mem_nil, or_false] at hv
    rcases hv with rfl | rfl <;> omega
  | [x, y], hb, v, hv => by
    have hx : x < 256 := hb x (by simp)
    have hy : y < 256 := hb y (by simp)
    simp only [b64_sextets, List.mem_cons, List.mem_singleton, List.not_mem_nil, or_false] at hv
    rcases hv with rfl | rfl | rfl <;> omega
  | x :: y :: z :: rest, hb, v, hv => by
    have hx : x < 256 := hb x (by simp)
    have hy : y < 256 := hb y (by simp)
    have hz : z < 256 := hb z (by simp)
    simp only [b64_sextets, List.mem_cons] at hv
    rcases hv with rfl | rfl | rfl | rfl | hv
    · omega
    · omega
    · omega
    · omega
    · exact b64_sextets_lt rest (fun b hb2 => hb b (by simp [hb2])) v hv

theorem qr_pair_b64_char : ∀ v, v < 64 →
    ValidPair (qr_pair (b64_char true v)) ∧
      spec_char (qr_pair (b64_char true v)) = b64_char false v := by
  decide

theorem spec_b64_value_char : ∀ v, v < 64 → spec_b64_value (b64_char false v) = some v := by
  decide

theorem qr_encode_eq_pairs_text (chars : List Nat) :
    qr_encode chars = pairs_text (chars.map qr_pair) := by
  rw [qr_encode, pairs_text, List.map_map]
  rfl

theorem qr_pair_padding : ValidPair (qr_pair 61) ∧ spec_char (qr_pair 61) = 61 := by
  decide

/-- The digit pairs of base64url text are well-formed and carry the standard
base64 text of the same bytes. -/
theorem qr_pairs_of_b64 (pad : Bool) (bytes : List Nat) (hb : ∀ b ∈ bytes, b < 256) :
    (∀ p ∈ (b64_encode true pad bytes).map qr_pair, ValidPair p) ∧
      ((b64_encode true pad bytes).map qr_pair).map spec_char = b64_encode false pad bytes := by
  have hlt := b64_sextets_lt bytes hb
  constructor
  · intro p hp
    simp only [b64_encode, List.map_append, List.map_map, List.mem_append, List.mem_map,
      Function.comp] at hp
    rcases hp with ⟨v, hv, rfl⟩ | ⟨c, hc, rfl⟩
    · exact (qr_pair_b64_char v (hlt v hv)).1
    · have hc61 : c = 61 := by
        split at hc
        · exact (List.mem_replicate.mp hc).2
        · simp at hc
      rw [hc61]
      exact qr_pair_padding.1
  · simp only [b64_encode, List.map_append, List.map_map]
    congr 1
    · apply List.map_congr_left
      intro v hv
      exact (qr_pair_b64_char v (hlt v hv)).2
    · split
      · rw [List.map_replicate]
        simp only [Function.comp, qr_pair_padding.2]
      · rfl

theorem b64_sextets_length : ∀ (bytes : List Nat),
    (b64_sextets bytes).length = (4 * bytes.length + 2) / 3
  | [] => by simp [b64_sextets]
  | [_] => by simp [b64_sextets]
  | [_, _] => by simp [b64_sextets]
  | _ :: _ :: _ :: rest => by
    simp only [b64_sextets, List.length_cons, b64_sextets_length rest]
    omega

theorem b64_char_ne_padding : ∀ v, v < 64 → b64_char false v ≠ 61 := by
  decide

theorem rdropWhile_append_padding (l : List Nat) (k : Nat) :
    (l ++ List.replicate k 61).rdropWhile (fun c => c == 61) =
      l.rdropWhile (fun c => c == 61) := by
  induction k with
  | zero => simp
  | succ k ih =>
    rw [List.replicate_succ', ← List.append_assoc, List.rdropWhile_concat_pos _ _ _ (by simp), ih]

theorem rdropWhile_b64_text (vs : List Nat) (h : ∀ v ∈ vs, v < 64) :
    (vs.map (b64_char false)).rdropWhile (fun c => c == 61) = vs.map (b64_char false) := by
  rw [List.rdropWhile_eq_self_iff]
  intro hl
  have hmem := List.getLast_mem hl
  obtain ⟨v, hv, hvc⟩ := List.mem_map.mp hmem
  rw [← hvc]
  simpa using b64_char_ne_padding v (h v hv)

theorem spec_strip_padding_encode (pad : Bool) (bytes : List Nat) (hb : ∀ b ∈ bytes, b < 256) :
    spec_strip_padding (b64_encode false pad bytes) =
      some ((b64_sextets bytes).map (b64_char false)) := by
  have hlt := b64_sextets_lt bytes hb
  have hlen := b64_sextets_length bytes
  cases pad with
  | false =>
    simp only [b64_encode, Bool.false_eq_true, if_false, List.append_nil, spec_strip_padding,
      rdropWhile_b64_text _ hlt, Nat.sub_self, if_true]
  | true =>
    have hfact : ((4 * bytes.length + 2) / 3 + (3 - bytes.length % 3) % 3) % 4 = 0 ∧
        (3 - bytes.length % 3) % 3 ≤ 2 := by
      have hq := Nat.div_add_mod bytes.length 3
      rcases (show bytes.length % 3 = 0 ∨ bytes.length % 3 = 1 ∨ bytes.length % 3 = 2 by
        omega) with h | h | h <;> rw [h] <;> rw [h] at hq <;> constructor <;> omega
    simp only [b64_encode, if_true, spec_strip_padding, rdropWhile_append_padding,
      rdropWhile_b64_text _ hlt, List.length_append, List.length_map, List.length_replicate,
      hlen, b64_pad_count, Nat.add_sub_cancel_left]
    rw [if_pos hfact]
    split <;> rfl

theorem mapM_spec_b64_value (vs : List Nat) (h : ∀ v ∈ vs, v < 64) :
    (vs.map (b64_char false)).mapM spec_b64_value = some vs := by
  induction vs with
  | nil => rfl
  | cons v vs ih =>
    rw [List.map_cons, List.mapM_cons, spec_b64_value_char v (h v (List.mem_cons_self _ _)),
      ih (fun w hw => h w (List.mem_cons_of_mem _ hw))]
    rfl

theorem spec_b64_bytes_sextets : ∀ (bytes : List Nat), (∀ b ∈ bytes, b < 256) →
    spec_b64_bytes (b64_sextets bytes) = some bytes
  | [], _ => rfl
  | [x], hb => by
    have hx : x < 256 := hb x (by simp)
    simp only [b64_sextets, spec_b64_bytes, Option.some.injEq, List.cons.injEq, and_true]
    omega
  | [x, y], hb => by
    have hx : x < 256 := hb x (by simp)
    have hy : y < 256 := hb y (by simp)
    simp only [b64_sextets, spec_b64_bytes, Option.some.injEq, List.cons.injEq, and_true]
    constructor <;> omega
  | x :: y :: z :: rest, hb => by
    have hx : x < 256 := hb x (by simp)
    have hy : y < 256 := hb y (by simp)
    have hz : z < 256 := hb z (by simp)
    have ih := spec_b64_bytes_sextets rest (fun b hb2 => hb b (by simp [hb2]))
    simp only [b64_sextets, spec_b64_bytes, ih, Option.map_some', Option.some.injEq,
      List.cons.injEq, and_true]
    refine ⟨?_, ?_, ?_⟩ <;> omega

/-- The decoder modelled from the specification meets the decoder contract. -/
theorem spec_decoder_decodes (pad : Bool) : DecodesBase64 pad spec_base64_decode_block := by
  intro bytes hb
  rw [spec_base64_decode_block, spec_strip_padding_encode pad bytes hb, Option.some_bind,
    mapM_spec_b64_value _ (b64_sextets_lt bytes hb)]
  exact spec_b64_bytes_sextets bytes hb

/-! ## The characters the transcoder stores -/

/-- A character stored by the loop body is `'+'` or a value from 47 to 127
other than 95. -/
theorem decode_pair_some_range (pr : pair_t) (c : Nat) (h : decode_pair pr = .ok (some c)) :
    c = 43 ∨ (47 ≤ c ∧ c ≤ 127 ∧ c ≠ 95) := by
  simp only [decode_pair, isdigit, isascii, pair_value] at h
  split at h
  · cases h
  · rename_i h1
    simp only [not_not, decide_eq_true_eq] at h1
    split at h
    · cases h
    · split at h
      · cases h
      · rename_i h3
        simp only [not_not, decide_eq_true_eq] at h3
        split at h
        · cases h
        · split at h
          · cases h; omega
          · split at h
            · cases h; omega
            · cases h; omega

theorem decode_pair_some_ne (pr : pair_t) (c : Nat) (h : decode_pair pr = .ok (some c)) :
    c ≠ 46 ∧ c ≠ 45 ∧ c ≠ 95 := by
  rcases decode_pair_some_range pr c h with h1 | h1 <;> omega

/-! ## How far the transcoder reads and how much it stores -/

theorem read_pair_spec (fp : FILE) :
    (read_pair fp).2.2.st_size = fp.st_size ∧
      ((read_pair fp).1 = true → (read_pair fp).2.2.unread.length + 2 = fp.unread.length) ∧
      (read_pair fp).2.2.unread.length ≤ fp.unread.length := by
  obtain ⟨sz, unread⟩ := fp
  match unread with
  | [] => rw [read_pair_nil]; simp
  | [a] => rw [read_pair_single]; simp
  | a :: b :: rest => rw [read_pair_cons]; simp; omega

/-- The loop never stores more characters than the capacity. -/
theorem transcode_loop_length_le (cap : Nat) :
    ∀ (fuel : Nat) (fp : FILE) (acc out : List Nat) (fp1 : FILE),
      acc.length ≤ cap → transcode_loop cap fuel fp acc = .ok (out, fp1) →
      out.length ≤ cap := by
  intro fuel
  induction fuel with
  | zero =>
    intro fp acc out fp1 hacc h
    simp only [transcode_loop] at h
    cases h; exact hacc
  | succ n ih =>
    intro fp acc out fp1 hacc h
    rw [transcode_loop] at h
    split at h
    · rename_i hlt
      split at h
      · cases h; exact hacc
      · rename_i pr fp2 _
        split at h
        · cases h
        · cases h; exact hacc
        · rename_i c hc
          exact ih fp2 (acc ++ [c]) out fp1 (by simp; omega) h
    · cases h; exact hacc

/-- Every character the loop stores has used up two characters of the input;
the file size is not changed. -/
theorem transcode_loop_consumed (cap : Nat) :
    ∀ (fuel : Nat) (fp : FILE) (acc out : List Nat) (fp1 : FILE),
      transcode_loop cap fuel fp acc = .ok (out, fp1) →
      2 * out.length + fp1.unread.length ≤ 2 * acc.length + fp.unread.length ∧
        fp1.st_size = fp.st_size := by
  intro fuel
  induction fuel with
  | zero =>
    intro fp acc out fp1 h
    simp only [transcode_loop] at h
    cases h; exact ⟨le_refl _, rfl⟩
  | succ n ih =>
    intro fp acc out fp1 h
    rw [transcode_loop] at h
    have hrp := read_pair_spec fp
    split at h
    · split at h
      · rename_i x fp2 heq
        rw [heq] at hrp
        cases h
        exact ⟨by have := hrp.2.2; simp only at this; omega, hrp.1⟩
      · rename_i pr fp2 heq
        rw [heq] at hrp
        have h2 := hrp.2.1 rfl
        simp only at h2
        split at h
        · cases h
        · cases h
          exact ⟨by omega, hrp.1⟩
        · rename_i c hc
          have := ih fp2 (acc ++ [c]) out fp1 h
          rw [List.length_append, List.length_singleton] at this
          exact ⟨by omega, this.2.trans hrp.1⟩
    · cases h; exact ⟨le_refl _, rfl⟩

/-- When capacity and budget exceed half the length of the unread input, the
result of the loop does not depend on them. -/
theorem transcode_loop_capacity_free :
    ∀ (fuel1 fuel2 cap1 cap2 : Nat) (fp : FILE) (acc : List Nat),
      fp.unread.length / 2 < fuel1 → fp.unread.length / 2 < fuel2 →
      acc.length + fp.unread.length / 2 < cap1 → acc.length + fp.unread.length / 2 < cap2 →
      transcode_loop cap1 fuel1 fp acc = transcode_loop cap2 fuel2 fp acc := by
  intro fuel1
  induction fuel1 with
  | zero => intro fuel2 cap1 cap2 fp acc h1; omega
  | succ n ih =>
    intro fuel2 cap1 cap2 fp acc h1 h2 h3 h4
    obtain ⟨m, rfl⟩ : ∃ m, fuel2 = m + 1 := ⟨fuel2 - 1, by omega⟩
    obtain ⟨sz, unread⟩ := fp
    rw [transcode_loop, transcode_loop, if_pos (by omega), if_pos (by omega)]
    match unread, h1, h2, h3, h4 with
    | [], _, _, _, _ => rw [read_pair_nil]
    | [a], _, _, _, _ => rw [read_pair_single]
    | a :: b :: rest, h1, h2, h3, h4 =>
      rw [read_pair_cons]
      simp only [List.length_cons] at h1 h2 h3 h4
      simp only
      cases hd : decode_pair ⟨(a : Int), (b : Int)⟩ with
      | error e => rfl
      | ok o =>
        cases o with
        | none => rfl
        | some c =>
          simp only
          exact ih m cap1 cap2 ⟨sz, rest⟩ (acc ++ [c]) (by simp only; omega) (by simp only; omega)
            (by simp only [List.length_append, List.length_singleton]; omega)
            (by simp only [List.length_append, List.length_singleton]; omega)

theorem wide_bytes_length (ws : List Nat) : (wide_bytes ws).length = 4 * ws.length := by
  induction ws with
  | nil => rfl
  | cons w ws ih =>
    have : wide_bytes (w :: ws) = le_bytes w ++ wide_bytes ws := by simp [wide_bytes]
    rw [this, List.length_append, ih]
    simp [le_bytes]
    omega

theorem pack_words_length (buf : List Nat) (n : Nat) :
    (pack_words buf n).length = (n + 3) / 4 := by
  rw [pack_words_eq, List.length_map, List.length_range]

theorem decode_qr_section_ok (dec : Base64Decoder) (fp fp1 : FILE) (buf buf1 : List Nat)
    (cap n : Nat) (h : decode_qr_section_into_ascii dec fp buf cap = .ok (n, buf1, fp1)) :
    ∃ b64 plain, transcode_loop cap cap fp [] = .ok (b64, fp1) ∧ dec b64 = some plain ∧
      n = b64.length ∧ buf1 = plain ++ buf.drop plain.length := by
  simp only [decode_qr_section_into_ascii] at h
  split at h
  · cases h
  · rename_i b64 fp2 heq
    split at h
    · cases h
    · rename_i plain hplain
      simp only [Except.ok.injEq, Prod.mk.injEq] at h
      obtain ⟨h1, h2, h3⟩ := h
      subst h3
      exact ⟨b64, plain, heq, hplain, h1.symm, h2.symm⟩

theorem set_zero_of_getD : ∀ (l : List Nat) (i : Nat), l.getD i 0 = 0 → l.set i 0 = l
  | [], _, _ => rfl
  | x :: xs, 0, h => by
    simp only [List.getD_cons_zero] at h
    rw [List.set_cons_zero, h]
  | x :: xs, i + 1, h => by
    simp only [List.getD_cons_succ] at h
    rw [List.set_cons_succ, set_zero_of_getD xs i h]

/-- Storing a zero beyond the decoded bytes of a zeroed buffer changes
nothing. -/
theorem set_zero_padding (plain : List Nat) (size i : Nat) (hi : plain.length ≤ i) :
    (plain ++ (List.replicate size 0).drop plain.length).set i 0 =
      plain ++ (List.replicate size 0).drop plain.length := by
  apply set_zero_of_getD
  have h := padded_getD plain plain.length (size - plain.length) (le_refl _) i
  rw [List.take_length] at h
  rw [List.drop_replicate, h, padded_byte, if_neg (by omega)]

/-! ## Sections that carry base64 text -/

theorem qr_encode_length (chars : List Nat) : (qr_encode chars).length = 2 * chars.length := by
  rw [qr_encode_eq_pairs_text, pairs_text_length, List.length_map]

theorem b64_encode_length_eq (pad : Bool) (bytes : List Nat) :
    (b64_encode false pad bytes).length = (b64_encode true pad bytes).length := by
  simp [b64_encode]

theorem b64_encode_length_ge (url pad : Bool) (bytes : List Nat) :
    bytes.length ≤ (b64_encode url pad bytes).length := by
  simp only [b64_encode, List.length_append, List.length_map, b64_sextets_length]
  omega

/-- The loop over the digit pairs of base64url text stores the standard base64
text of the same bytes and goes on with the text after the pairs. -/
theorem transcode_loop_b64 (pad : Bool) (bytes : List Nat) (hb : ∀ b ∈ bytes, b < 256)
    (cap sz : Nat) (tail : List Nat) (hcap : (b64_encode true pad bytes).length < cap) :
    transcode_loop cap cap ⟨sz, qr_encode (b64_encode true pad bytes) ++ tail⟩ [] =
      transcode_loop cap (cap - (b64_encode true pad bytes).length) ⟨sz, tail⟩
        (b64_encode false pad bytes) := by
  obtain ⟨hv, hmap⟩ := qr_pairs_of_b64 pad bytes hb
  rw [qr_encode_eq_pairs_text, transcode_loop_room cap sz _ tail hv (by simpa using hcap), hmap,
    List.length_map]

theorem transcode_b64_delimiter (pad : Bool) (bytes : List Nat) (hb : ∀ b ∈ bytes, b < 256)
    (cap sz : Nat) (rest : List Nat) (hcap : (b64_encode true pad bytes).length < cap) :
    transcode_loop cap cap ⟨sz, qr_encode (b64_encode true pad bytes) ++ qr_delimiter ++ rest⟩ [] =
      .ok (b64_encode false pad bytes, ⟨sz, rest⟩) := by
  rw [List.append_assoc, transcode_loop_b64 pad bytes hb cap sz _ hcap]
  exact transcode_loop_delimiter cap sz rest _ _ (by omega)
    (by rw [b64_encode_length_eq]; exact hcap)

theorem transcode_b64_eof (pad : Bool) (bytes : List Nat) (hb : ∀ b ∈ bytes, b < 256)
    (cap sz : Nat) (hcap : (b64_encode true pad bytes).length < cap) :
    transcode_loop cap cap ⟨sz, qr_encode (b64_encode true pad bytes)⟩ [] =
      .ok (b64_encode false pad bytes, ⟨sz, []⟩) := by
  have h := transcode_loop_b64 pad bytes hb cap sz [] hcap
  rw [List.append_nil] at h
  rw [h, transcode_loop_eof]

/-- The header stage in terms of the transcoded text and the decoded bytes:
the bytes before the first NUL are written. -/
theorem read_jws_header_eq (dec : Base64Decoder) (fp fp1 : FILE) (b64 plain : List Nat)
    (ht : transcode_loop fp.st_size fp.st_size fp [] = .ok (b64, fp1))
    (hd : dec b64 = some plain) (hlen : plain.length < fp.st_size) :
    read_jws_header dec fp = .ok (plain.takeWhile (fun c => c != 0), fp1) := by
  simp only [read_jws_header, get_filesize, decode_qr_section_into_ascii, ht, hd]
  rw [set_zero_padding plain fp.st_size (fp.st_size - 1) (by omega), printf_s,
    List.drop_replicate, takeWhile_append_zeros]

theorem wide_bytes_take (buf : List Nat) (n : Nat) (hn : n ≤ buf.length)
    (hb : ∀ b ∈ buf, b < 256) : (wide_bytes (pack_words buf n)).take n = buf.take n := by
  have hl : (buf.take n).length = n := by rw [List.length_take]; omega
  rw [pack_words_eq, wide_bytes_range buf n hn hb _ (le_refl _), List.take_take,
    Nat.min_eq_left (by omega), List.take_append_of_le_length (by omega), List.take_take,
    Nat.min_self]

/-- The payload stage on the digit pairs of the base64url text of a raw DEFLATE
stream: the inflater is handed the stream followed by zero bytes. -/
theorem read_jws_payload_b64 (pad : Bool) (dec : Base64Decoder) (hdec : DecodesBase64 pad dec)
    (inflate : Inflater) (c P : List Nat) (hc : ∀ b ∈ c, b < 256)
    (hdef : RawDeflateOf inflate c P) (size : Nat)
    (hsize : (b64_encode true pad c).length < size) :
    read_jws_payload dec inflate ⟨size, qr_encode (b64_encode true pad c)⟩ =
      if P.length ≤ size * 4 then .ok (P.takeWhile (fun x => x != 0), ⟨size, []⟩)
      else .error .DecompressionFailed := by
  have hge := b64_encode_length_ge true pad c
  have hbuf : ∀ b ∈ c ++ List.replicate (size - c.length) 0, b < 256 := by
    intro b hmem
    rcases List.mem_append.mp hmem with h | h
    · exact hc b h
    · rw [(List.mem_replicate.mp h).2]; omega
  have htake : (c ++ List.replicate (size - c.length) 0).take (b64_encode true pad c).length =
      c ++ List.replicate ((b64_encode true pad c).length - c.length) 0 := by
    rw [List.take_append_eq_append_take, List.take_of_length_le hge, List.take_replicate,
      Nat.min_eq_left (by omega)]
  simp only [read_jws_payload, get_filesize, decode_qr_section_into_ascii,
    transcode_b64_eof pad c hc size size hsize, hdec c hc, b64_encode_length_eq,
    List.drop_replicate]
  rw [wide_bytes_take _ _ (by simp; omega) hbuf, htake, hdef]
  by_cases hfit : P.length ≤ size * 4
  · simp only [if_pos hfit]
    rw [emit_payload_eq P (size * 4) hfit]
  · simp only [if_neg hfit]

theorem card_text_length (pad : Bool) (header payload : List Nat) :
    (card_text pad header payload).length =
      5 + 2 * (b64_encode true pad header).length + 2 +
        2 * (b64_encode true pad payload).length := by
  simp only [card_text, List.length_append, qr_encode_length, shc_token, qr_delimiter,
    List.length_cons, List.length_nil]

/-- A run of `read_qr` on the text of a card whose payload bytes are a raw
DEFLATE stream. -/
theorem read_qr_card (pad : Bool) (dec : Base64Decoder) (hdec : DecodesBase64 pad dec)
    (inflate : Inflater) (header c P : List Nat) (hh : ∀ b ∈ header, b < 256)
    (hc : ∀ b ∈ c, b < 256) (hdef : RawDeflateOf inflate c P) :
    read_qr dec inflate (fopen (card_text pad header c)) =
      if P.length ≤ (card_text pad header c).length * 4 then
        ⟨header.takeWhile (fun x => x != 0) ++ [10] ++ P.takeWhile (fun x => x != 0), none,
          true⟩
      else ⟨header.takeWhile (fun x => x != 0) ++ [10], some .DecompressionFailed, true⟩ := by
  have hlen := card_text_length pad header c
  have htake : (card_text pad header c).take 5 = shc_token := by
    simp only [card_text, List.append_assoc]
    exact List.take_left' rfl
  have hdrop : (card_text pad header c).drop 5 =
      qr_encode (b64_encode true pad header) ++ qr_delimiter ++
        qr_encode (b64_encode true pad c) := by
    simp only [card_text, List.append_assoc]
    exact List.drop_left' rfl
  have hgeh := b64_encode_length_ge true pad header
  have hhead : read_jws_header dec
      ⟨(card_text pad header c).length,
        qr_encode (b64_encode true pad header) ++ qr_delimiter ++
          qr_encode (b64_encode true pad c)⟩ =
      .ok (header.takeWhile (fun x => x != 0),
        ⟨(card_text pad header c).length, qr_encode (b64_encode true pad c)⟩) :=
    read_jws_header_eq dec _ _ (b64_encode false pad header) header
      (transcode_b64_delimiter pad header hh _ _ _ (by simp only; omega)) (hdec header hh)
      (by simp only; omega)
  have hpay := read_jws_payload_b64 pad dec hdec inflate c P hc hdef
    (card_text pad header c).length (by omega)
  by_cases hfit : P.length ≤ (card_text pad header c).length * 4
  · rw [if_pos hfit] at hpay
    simp only [read_qr, scan_token_long _ (show 5 ≤ (card_text pad header c).length by omega),
      htake, decide_True, hdrop, read_sections, hhead, hpay, if_pos hfit]
  · rw [if_neg hfit] at hpay
    simp only [read_qr, scan_token_long _ (show 5 ≤ (card_text pad header c).length by omega),
      htake, decide_True, hdrop, read_sections, hhead, hpay, if_neg hfit, aborts, Bool.not_false]

theorem decode_section_b64_eof (pad : Bool) (dec : Base64Decoder) (hdec : DecodesBase64 pad dec)
    (bytes : List Nat) (hb : ∀ b ∈ bytes, b < 256) (cap sz : Nat) (buf : List Nat)
    (hcap : (b64_encode true pad bytes).length < cap) :
    decode_qr_section_into_ascii dec ⟨sz, qr_encode (b64_encode true pad bytes)⟩ buf cap =
      .ok ((b64_encode true pad bytes).length, bytes ++ buf.drop bytes.length, ⟨sz, []⟩) := by
  simp only [decode_qr_section_into_ascii, transcode_b64_eof pad bytes hb cap sz hcap,
    hdec bytes hb, b64_encode_length_eq]

/-- The first `n` bytes of the memory image of the packed words are the decoded
bytes followed by zero bytes of the zeroed buffer. -/
theorem packed_stream_eq (c : List Nat) (n size : Nat) (hc : ∀ b ∈ c, b < 256)
    (h1 : c.length ≤ n) (h2 : n ≤ size) :
    (wide_bytes (pack_words (c ++ (List.replicate size 0).drop c.length) n)).take n =
      c ++ List.replicate (n - c.length) 0 := by
  have hbuf : ∀ b ∈ c ++ (List.replicate size 0).drop c.length, b < 256 := by
    intro b hmem
    rcases List.mem_append.mp hmem with h | h
    · exact hc b h
    · rw [List.drop_replicate] at h
      rw [(List.mem_replicate.mp h).2]; omega
  rw [wide_bytes_take _ _ (by simp; omega) hbuf, List.drop_replicate,
    List.take_append_eq_append_take, List.take_of_length_le h1, List.take_replicate,
    Nat.min_eq_left (by omega)]

/-! ## The decoder of the specification on malformed text -/

theorem spec_b64_value_none (c : Nat) (h : is_b64_char c = false) : spec_b64_value c = none := by
  simp only [is_b64_char, decide_eq_false_iff_not] at h
  simp only [spec_b64_value]
  split_ifs <;> first | rfl | (exfalso; omega)

theorem mapM_spec_b64_value_none : ∀ (body : List Nat),
    (∃ c ∈ body, is_b64_char c = false) → body.mapM spec_b64_value = none
  | [], h => by
    obtain ⟨c, hc, _⟩ := h
    simp at hc
  | x :: xs, h => by
    rw [List.mapM_cons]
    cases hx : spec_b64_value x with
    | none => rfl
    | some v =>
      have hxs : ∃ c ∈ xs, is_b64_char c = false := by
        obtain ⟨c, hc, hbad⟩ := h
        rcases List.mem_cons.mp hc with rfl | hc
        · rw [spec_b64_value_none c hbad] at hx
          cases hx
        · exact ⟨c, hc, hbad⟩
      rw [mapM_spec_b64_value_none xs hxs]
      rfl

theorem spec_strip_padding_eq (body : List Nat) (k : Nat)
    (hbody : ∀ hl : body ≠ [], body.getLast hl ≠ 61) :
    spec_strip_padding (body ++ List.replicate k 61) =
      if k = 0 then some body
      else if (body.length + k) % 4 = 0 ∧ k ≤ 2 then some body else none := by
  have hself : body.rdropWhile (fun c => c == 61) = body := by
    rw [List.rdropWhile_eq_self_iff]
    intro hl
    simpa using hbody hl
  simp only [spec_strip_padding, rdropWhile_append_padding, hself, List.length_append,
    List.length_replicate, Nat.add_sub_cancel_left]

theorem spec_decoder_rejects (body : List Nat) (k : Nat)
    (hbody : ∀ hl : body ≠ [], body.getLast hl ≠ 61)
    (hbad : (∃ c ∈ body, is_b64_char c = false) ∨
      (0 < k ∧ ((body.length + k) % 4 ≠ 0 ∨ 2 < k))) :
    spec_base64_decode_block (body ++ List.replicate k 61) = none := by
  rw [spec_base64_decode_block, spec_strip_padding_eq body k hbody]
  rcases hbad with hbad | ⟨hk, hpad⟩
  · split_ifs
    · rw [Option.some_bind, mapM_spec_b64_value_none body hbad]
      rfl
    · rw [Option.some_bind, mapM_spec_b64_value_none body hbad]
      rfl
    · rfl
  · rw [if_neg (by omega), if_neg (by omega)]
    rfl

/-! ## The scenario streams -/

set_option maxRecDepth 100000 in
/-- The inflater of the specification reproduces the payload from the stream
zlib writes for it. -/
theorem payload_stream_inflates : RawDeflateOf rfc1951_inflate payload_stream payload_json := by
  intro t cap
  rfl

set_option maxRecDepth 100000 in
/-- A stream of six bytes for 120 bytes `'a'`, as zlib writes it. -/
theorem run_stream_inflates :
    RawDeflateOf rfc1951_inflate [75, 76, 28, 24, 0, 0] (List.replicate 120 97) := by
  intro t cap
  rfl

set_option maxRecDepth 100000 in
/-- The payload stream with one bit of its first byte flipped (139 for 171)
is a well-formed stream of other bytes: the payload with `'['` for `'{'`. -/
theorem flipped_stream_inflates :
    RawDeflateOf rfc1951_inflate (139 :: payload_stream.tail) (91 :: payload_json.tail) := by
  intro t cap
  rfl

theorem header_text_eq (pad : Bool) : b64_encode true pad header_json = header_text := by
  cases pad <;> rfl

/-! ## Where a section ends -/

/-- When the loop body stores a character, the pair is a well-formed pair and
the character is the one the specification assigns to it. -/
theorem decode_pair_some_valid (a b c : Nat)
    (h : decode_pair ⟨(a : Int), (b : Int)⟩ = .ok (some c)) :
    ValidPair (a, b) ∧ c = spec_char (a, b) := by
  by_cases hv : ValidPair (a, b)
  · have h1 := decode_pair_valid (a, b) hv
    simp only at h1
    rw [h1] at h
    cases h
    exact ⟨hv, rfl⟩
  · exfalso
    by_cases hd : (48 ≤ (a : Int) ∧ (a : Int) ≤ 57) ∧ (48 ≤ (b : Int) ∧ (b : Int) ≤ 57)
    · by_cases h127 : 45 + (10 * ((a : Int) - 48) + ((b : Int) - 48)) > 127
      · rw [(decode_pair_not_ascii a b hd.1 hd.2).mpr h127] at h
        cases h
      · have hab : a = 48 ∧ b = 49 := by
          simp only [ValidPair] at hv
          omega
        obtain ⟨rfl, rfl⟩ := hab
        have h1 : decode_pair ⟨((48 : Nat) : Int), ((49 : Nat) : Int)⟩ = .ok none := by rfl
        rw [h1] at h
        cases h
    · rw [decode_pair_nondigit a b hd] at h
      cases h

/-- The loop body breaks on the delimiter pair only. -/
theorem decode_pair_none_delimiter (a b : Nat)
    (h : decode_pair ⟨(a : Int), (b : Int)⟩ = .ok none) : [a, b] = qr_delimiter := by
  by_cases hv : ValidPair (a, b)
  · have h1 := decode_pair_valid (a, b) hv
    simp only at h1
    rw [h1] at h
    cases h
  · by_cases hd : (48 ≤ (a : Int) ∧ (a : Int) ≤ 57) ∧ (48 ≤ (b : Int) ∧ (b : Int) ≤ 57)
    · by_cases h127 : 45 + (10 * ((a : Int) - 48) + ((b : Int) - 48)) > 127
      · rw [(decode_pair_not_ascii a b hd.1 hd.2).mpr h127] at h
        cases h
      · have hab : a = 48 ∧ b = 49 := by
          simp only [ValidPair] at hv
          omega
        obtain ⟨rfl, rfl⟩ := hab
        rfl
    · rw [decode_pair_nondigit a b hd] at h
      cases h

/-- A run of the loop whose capacity and budget exceed half the length of the
unread input and that ends without an error has stored the characters of
well-formed pairs and has stopped either right after the delimiter pair that
follows them or at the end of the stream, where fewer than two characters were
left. -/
theorem transcode_loop_stops (cap : Nat) :
    ∀ (fuel : Nat) (fp : FILE) (acc out : List Nat) (fp1 : FILE),
      fp.unread.length / 2 < fuel → acc.length + fp.unread.length / 2 < cap →
      transcode_loop cap fuel fp acc = .ok (out, fp1) →
      ∃ ps : List (Nat × Nat), (∀ p ∈ ps, ValidPair p) ∧ out = acc ++ ps.map spec_char ∧
        (fp.unread = pairs_text ps ++ qr_delimiter ++ fp1.unread ∨
          (fp1.unread = [] ∧ ∃ l, l.length ≤ 1 ∧ fp.unread = pairs_text ps ++ l)) := by
  intro fuel
  induction fuel with
  | zero => intro fp acc out fp1 h1; omega
  | succ n ih =>
    intro fp acc out fp1 h1 h2 h
    obtain ⟨sz, unread⟩ := fp
    rw [transcode_loop, if_pos (by omega)] at h
    match unread, h1, h2, h with
    | [], _, _, h =>
      rw [read_pair_nil] at h
      simp only [Except.ok.injEq, Prod.mk.injEq] at h
      obtain ⟨rfl, rfl⟩ := h
      exact ⟨[], by simp, by simp, Or.inr ⟨rfl, [], by simp, by simp [pairs_text]⟩⟩
    | [a], _, _, h =>
      rw [read_pair_single] at h
      simp only [Except.ok.injEq, Prod.mk.injEq] at h
      obtain ⟨rfl, rfl⟩ := h
      exact ⟨[], by simp, by simp, Or.inr ⟨rfl, [a], by simp, by simp [pairs_text]⟩⟩
    | a :: b :: rest, h1, h2, h =>
      rw [read_pair_cons] at h
      simp only [List.length_cons] at h1 h2
      simp only at h
      cases hd : decode_pair ⟨(a : Int), (b : Int)⟩ with
      | error e => rw [hd] at h; cases h
      | ok o =>
        rw [hd] at h
        cases o with
        | none =>
          simp only [Except.ok.injEq, Prod.mk.injEq] at h
          obtain ⟨rfl, rfl⟩ := h
          refine ⟨[], by simp, by simp, Or.inl ?_⟩
          have := decode_pair_none_delimiter a b hd
          simp only [pairs_text, List.map_nil, List.flatten_nil, List.nil_append, ← this,
            List.cons_append]
        | some c =>
          simp only at h
          obtain ⟨hv, hc⟩ := decode_pair_some_valid a b c hd
          obtain ⟨ps, hps, hout, hshape⟩ := ih ⟨sz, rest⟩ (acc ++ [c]) out fp1
            (by simp only; omega)
            (by simp only [List.length_append, List.length_singleton]; omega) h
          refine ⟨(a, b) :: ps, ?_, ?_, ?_⟩
          · intro p hp
            rcases List.mem_cons.mp hp with rfl | hp
            · exact hv
            · exact hps p hp
          · rw [hout, hc, List.map_cons, List.append_assoc, List.singleton_append]
          · simp only at hshape
            rcases hshape with hs | ⟨hnil, l, hl, hs⟩
            · left
              rw [pairs_text_cons, hs]
              simp only [List.cons_append]
            · right
              refine ⟨hnil, l, hl, ?_⟩
              rw [pairs_text_cons, hs]
              simp only [List.cons_append]

/-- When the capacity exceeds half the length of the unread input, the result
of the section decoder does not depend on it. -/
theorem decode_qr_section_capacity_free (dec : Base64Decoder) (fp : FILE) (buf : List Nat)
    (cap1 cap2 : Nat) (h1 : fp.unread.length / 2 < cap1) (h2 : fp.unread.length / 2 < cap2) :
    decode_qr_section_into_ascii dec fp buf cap1 =
      decode_qr_section_into_ascii dec fp buf cap2 := by
  simp only [decode_qr_section_into_ascii]
  rw [transcode_loop_capacity_free cap1 cap2 cap1 cap2 fp [] h1 h2
    (by simp only [List.length_nil]; omega) (by simp only [List.length_nil]; omega)]

/-! ## Section decoding: claims C1 to C4 -/

/-- C1, round trip of the section decoder: for every byte buffer `B`, when `B`
is base64url-encoded (with or without `=` padding), every character `c` is
written as the two decimal digits of `c - 45` and the delimiter pair `"01"` is
appended (any text may follow), `decode_qr_section_into_ascii`, run with a
base64 decoder that meets its contract and with room for the characters of the
section, stores exactly `B` at the start of the output buffer, returns the
number of characters and stops reading at the delimiter. -/
theorem c1_section_round_trip (pad : Bool) (dec : Base64Decoder) (hdec : DecodesBase64 pad dec)
    (bytes : List Nat) (hb : ∀ b ∈ bytes, b < 256) (sz buf_size : Nat) (rest buf : List Nat)
    (hcap : (b64_encode true pad bytes).length ≤ buf_size) :
    decode_qr_section_into_ascii dec
        ⟨sz, qr_encode (b64_encode true pad bytes) ++ qr_delimiter ++ rest⟩ buf buf_size =
      .ok ((b64_encode true pad bytes).length, bytes ++ buf.drop bytes.length,
        ⟨sz, if (b64_encode true pad bytes).length < buf_size then rest
          else qr_delimiter ++ rest⟩) ∧
      (bytes ++ buf.drop bytes.length).take bytes.length = bytes := by
  obtain ⟨hv, hmap⟩ := qr_pairs_of_b64 pad bytes hb
  have hlen : ((b64_encode true pad bytes).map qr_pair).length =
      (b64_encode true pad bytes).length := by
    simp
  have hlen2 : (b64_encode false pad bytes).length = (b64_encode true pad bytes).length := by
    simp [b64_encode]
  have h1 : transcode_loop buf_size buf_size
      ⟨sz, qr_encode (b64_encode true pad bytes) ++ qr_delimiter ++ rest⟩ [] =
      .ok (b64_encode false pad bytes,
        ⟨sz, if (b64_encode true pad bytes).length < buf_size then rest
          else qr_delimiter ++ rest⟩) := by
    rw [qr_encode_eq_pairs_text, List.append_assoc]
    by_cases hn : (b64_encode true pad bytes).length < buf_size
    · rw [transcode_loop_room buf_size sz _ _ hv (by omega), if_pos hn, hmap]
      exact transcode_loop_delimiter buf_size sz rest _ _ (by omega) (by omega)
    · rw [transcode_loop_full buf_size sz _ _ hv (by omega), if_neg hn, hmap,
        List.take_of_length_le (by omega), List.drop_of_length_le (by omega)]
      rfl
  refine ⟨?_, by simp⟩
  simp only [decode_qr_section_into_ascii, h1, hdec bytes hb, hlen2]

/-- Witness of C1: the nine bytes `01 04 00 fb ff 48 69 00 21`, whose base64url
text `AQQA-_9IaQAh` uses both URL-safe characters, followed by the delimiter
and further text. -/
theorem c1_section_round_trip_witness :
    qr_encode (b64_encode true false [1, 4, 0, 251, 255, 72, 105, 0, 33]) =
        [50, 48, 51, 54, 51, 54, 50, 48, 48, 48, 53, 48, 49, 50, 50, 56, 53, 50, 51, 54, 50, 48,
          53, 57] ∧
      (decode_qr_section_into_ascii spec_base64_decode_block
          ⟨31, qr_encode (b64_encode true false [1, 4, 0, 251, 255, 72, 105, 0, 33]) ++
            qr_delimiter ++ [50, 48, 50, 48]⟩ (List.replicate 31 0) 31 =
        .ok (12, [1, 4, 0, 251, 255, 72, 105, 0, 33] ++ List.replicate 22 0,
          ⟨31, [50, 48, 50, 48]⟩) ∧
      ([1, 4, 0, 251, 255, 72, 105, 0, 33] ++
          (List.replicate 31 0).drop 9).take 9 = [1, 4, 0, 251, 255, 72, 105, 0, 33]) :=
  ⟨by rfl, c1_section_round_trip false spec_base64_decode_block (spec_decoder_decodes false)
    [1, 4, 0, 251, 255, 72, 105, 0, 33] (by decide) 31 31 [50, 48, 50, 48]
    (List.replicate 31 0) (by decide)⟩

/-- C2, delimiter detection: when the first `k` pairs are well-formed
non-delimiter pairs, pair `k` is `"01"` and `k` is below the capacity, the
transcoder stores exactly the `k` characters of those pairs, consumes the
delimiter without storing it and leaves the text after it unread; the stored
characters, the returned count `k` and the decoded bytes do not depend on that
text. -/
theorem c2_delimiter_detection (dec : Base64Decoder) (buf_size sz : Nat)
    (ps : List (Nat × Nat)) (rest buf : List Nat)
    (hv : ∀ p ∈ ps, ValidPair p) (hk : ps.length < buf_size) :
    transcode_loop buf_size buf_size ⟨sz, pairs_text ps ++ qr_delimiter ++ rest⟩ [] =
        .ok (ps.map spec_char, ⟨sz, rest⟩) ∧
      (ps.map spec_char).length = ps.length ∧
      decode_qr_section_into_ascii dec ⟨sz, pairs_text ps ++ qr_delimiter ++ rest⟩ buf buf_size =
        (match dec (ps.map spec_char) with
          | none => .error .InvalidBase64
          | some plain => .ok (ps.length, plain ++ buf.drop plain.length, ⟨sz, rest⟩)) := by
  have h1 : transcode_loop buf_size buf_size ⟨sz, pairs_text ps ++ qr_delimiter ++ rest⟩ [] =
      .ok (ps.map spec_char, ⟨sz, rest⟩) := by
    rw [List.append_assoc, transcode_loop_pairs buf_size sz _ ps buf_size [] hv (by omega)
      (by simp; omega)]
    rw [transcode_loop_delimiter buf_size sz rest _ _ (by omega) (by simpa using hk)]
    simp
  refine ⟨h1, by simp, ?_⟩
  simp only [decode_qr_section_into_ascii, h1, List.length_map]

/-- Witness of C2: header pairs `"20"`, `"21"`, then `"01"` and payload text. -/
theorem c2_delimiter_detection_witness :
    transcode_loop 8 8 ⟨11, pairs_text [(50, 48), (50, 49)] ++ qr_delimiter ++ [50, 50, 51]⟩ [] =
        .ok ([(50, 48), (50, 49)].map spec_char, ⟨11, [50, 50, 51]⟩) ∧
      ([(50, 48), (50, 49)].map spec_char).length = 2 ∧
      decode_qr_section_into_ascii spec_base64_decode_block
          ⟨11, pairs_text [(50, 48), (50, 49)] ++ qr_delimiter ++ [50, 50, 51]⟩
          (List.replicate 8 0) 8 =
        (match spec_base64_decode_block ([(50, 48), (50, 49)].map spec_char) with
          | none => .error .InvalidBase64
          | some plain =>
            .ok (2, plain ++ (List.replicate 8 0).drop plain.length, ⟨11, [50, 50, 51]⟩)) :=
  c2_delimiter_detection spec_base64_decode_block 8 11 [(50, 48), (50, 49)] [50, 50, 51]
    (List.replicate 8 0) (by decide) (by decide)

/-- C3, digit validation: when a pair that can be read in full, reached after
well-formed non-delimiter pairs and below the capacity, holds a character
outside `'0'..'9'`, the transcoder and the section decoder fail with `NonDigit`;
a failed run hands over no characters at all. -/
theorem c3_digit_validation (dec : Base64Decoder) (buf_size sz : Nat)
    (ps : List (Nat × Nat)) (a b : Nat) (rest buf : List Nat)
    (hv : ∀ p ∈ ps, ValidPair p) (hk : ps.length < buf_size)
    (hbad : ¬ ((48 ≤ a ∧ a ≤ 57) ∧ (48 ≤ b ∧ b ≤ 57))) :
    transcode_loop buf_size buf_size ⟨sz, pairs_text ps ++ a :: b :: rest⟩ [] =
        .error .NonDigit ∧
      decode_qr_section_into_ascii dec ⟨sz, pairs_text ps ++ a :: b :: rest⟩ buf buf_size =
        .error .NonDigit := by
  have h1 : transcode_loop buf_size buf_size ⟨sz, pairs_text ps ++ a :: b :: rest⟩ [] =
      .error .NonDigit := by
    rw [transcode_loop_pairs buf_size sz _ ps buf_size [] hv (by omega) (by simp; omega)]
    exact transcode_loop_error buf_size sz a b rest _ _ _ (by omega) (by simpa using hk)
      (decode_pair_nondigit _ _ (by omega))
  exact ⟨h1, by simp only [decode_qr_section_into_ascii, h1]⟩

/-- Witness of C3: the pair `('a','5')` after one well-formed pair. -/
theorem c3_digit_validation_witness :
    transcode_loop 9 9 ⟨9, pairs_text [(50, 48)] ++ 97 :: 53 :: [50, 49]⟩ [] =
        .error .NonDigit ∧
      decode_qr_section_into_ascii spec_base64_decode_block
          ⟨9, pairs_text [(50, 48)] ++ 97 :: 53 :: [50, 49]⟩ (List.replicate 9 0) 9 =
        .error .NonDigit :=
  c3_digit_validation spec_base64_decode_block 9 9 [(50, 48)] 97 53 [50, 49]
    (List.replicate 9 0) (by decide) (by decide) (by decide)

/-- C4, as amended: a stream of well-formed non-delimiter pairs followed by a
single leftover character does not make section decoding fail with
`TruncatedPair`; the transcoder ends the section normally with the characters
transcoded so far, the leftover character being read and dropped when the
capacity is not used up by the pairs. -/
theorem c4_leftover_ends_section (dec : Base64Decoder) (cap sz : Nat)
    (ps : List (Nat × Nat)) (x : Nat) (buf : List Nat) (hv : ∀ p ∈ ps, ValidPair p) :
    transcode_loop cap cap ⟨sz, pairs_text ps ++ [x]⟩ [] =
        .ok ((ps.map spec_char).take cap,
          ⟨sz, if ps.length < cap then [] else pairs_text (ps.drop cap) ++ [x]⟩) ∧
      decode_qr_section_into_ascii dec ⟨sz, pairs_text ps ++ [x]⟩ buf cap =
        (match dec ((ps.map spec_char).take cap) with
          | none => .error .InvalidBase64
          | some plain =>
            .ok (min ps.length cap, plain ++ buf.drop plain.length,
              ⟨sz, if ps.length < cap then [] else pairs_text (ps.drop cap) ++ [x]⟩)) ∧
      decode_qr_section_into_ascii dec ⟨sz, pairs_text ps ++ [x]⟩ buf cap ≠
        .error .TruncatedPair := by
  have h1 : transcode_loop cap cap ⟨sz, pairs_text ps ++ [x]⟩ [] =
      .ok ((ps.map spec_char).take cap,
        ⟨sz, if ps.length < cap then [] else pairs_text (ps.drop cap) ++ [x]⟩) := by
    by_cases hn : ps.length < cap
    · rw [transcode_loop_room cap sz ps [x] hv hn, if_pos hn]
      rw [transcode_loop_leftover cap sz x _ _ (by omega) (by simpa using hn)]
      rw [List.take_of_length_le (by simp; omega)]
    · rw [transcode_loop_full cap sz ps [x] hv (by omega), if_neg hn]
  have h2 : decode_qr_section_into_ascii dec ⟨sz, pairs_text ps ++ [x]⟩ buf cap =
      (match dec ((ps.map spec_char).take cap) with
        | none => .error .InvalidBase64
        | some plain =>
          .ok (min ps.length cap, plain ++ buf.drop plain.length,
            ⟨sz, if ps.length < cap then [] else pairs_text (ps.drop cap) ++ [x]⟩)) := by
    simp only [decode_qr_section_into_ascii, h1, List.length_take, List.length_map]
    rw [Nat.min_comm]
  refine ⟨h1, h2, ?_⟩
  rw [h2]
  cases dec ((ps.map spec_char).take cap) <;> simp

/-- Witness of C4 as amended: the text `"20203"`. -/
theorem c4_leftover_ends_section_witness :
    transcode_loop 10 10 ⟨10, pairs_text [(50, 48), (50, 48)] ++ [51]⟩ [] =
        .ok (([(50, 48), (50, 48)].map spec_char).take 10,
          ⟨10, if [(50, 48), (50, 48)].length < 10 then []
            else pairs_text ([(50, 48), (50, 48)].drop 10) ++ [51]⟩) ∧
      decode_qr_section_into_ascii spec_base64_decode_block
          ⟨10, pairs_text [(50, 48), (50, 48)] ++ [51]⟩ (List.replicate 10 0) 10 =
        (match spec_base64_decode_block (([(50, 48), (50, 48)].map spec_char).take 10) with
          | none => .error .InvalidBase64
          | some plain =>
            .ok (min [(50, 48), (50, 48)].length 10,
              plain ++ (List.replicate 10 0).drop plain.length,
              ⟨10, if [(50, 48), (50, 48)].length < 10 then []
                else pairs_text ([(50, 48), (50, 48)].drop 10) ++ [51]⟩)) ∧
      decode_qr_section_into_ascii spec_base64_decode_block
          ⟨10, pairs_text [(50, 48), (50, 48)] ++ [51]⟩ (List.replicate 10 0) 10 ≠
        .error .TruncatedPair :=
  c4_leftover_ends_section spec_base64_decode_block 10 10 [(50, 48), (50, 48)] 51
    (List.replicate 10 0) (by decide)

/-- Counterexample to C4 as stated: on the file `shc:/20203`, whose section
text `"20203"` ends with the single leftover digit `'3'`, section decoding does
not fail with `TruncatedPair`: it returns the count 2 for the characters `"AA"`
and leaves the file at its end. -/
theorem c4_counterexample :
    transcode_loop 10 10 ⟨10, [50, 48, 50, 48, 51]⟩ [] = .ok ([65, 65], ⟨10, []⟩) ∧
      decode_qr_section_into_ascii spec_base64_decode_block ⟨10, [50, 48, 50, 48, 51]⟩
          (List.replicate 10 0) 10 = .ok (2, List.replicate 10 0, ⟨10, []⟩) ∧
      decode_qr_section_into_ascii spec_base64_decode_block ⟨10, [50, 48, 50, 48, 51]⟩
          (List.replicate 10 0) 10 ≠ .error .TruncatedPair := by
  refine ⟨by rfl, by rfl, ?_⟩
  intro h
  have h2 : decode_qr_section_into_ascii spec_base64_decode_block ⟨10, [50, 48, 50, 48, 51]⟩
      (List.replicate 10 0) 10 = .ok (2, List.replicate 10 0, ⟨10, []⟩) := by rfl
  rw [h2] at h
  cases h

/-! ## Token check: claim C5 -/

/-- C5, as amended: `read_qr` goes on to header decoding exactly when the first
five bytes of the input are `shc:/`. An input of at least five bytes that
starts otherwise fails with `BadPrefix`, an input shorter than five bytes fails
with the read failure of `scan_token`; in both cases nothing beyond the first
five bytes has been read and nothing has been written. -/
theorem c5_token_enforcement (dec : Base64Decoder) (inflate : Inflater) (content : List Nat) :
    (content.take 5 = shc_token →
        read_qr dec inflate (fopen content) =
          read_sections dec inflate ⟨content.length, content.drop 5⟩) ∧
      (5 ≤ content.length → content.take 5 ≠ shc_token →
        scan_token (fopen content) shc_token =
            .ok (false, ⟨content.length, content.drop 5⟩) ∧
          read_qr dec inflate (fopen content) = ⟨[], some .BadPrefix, true⟩) ∧
      (content.length < 5 →
        content.take 5 ≠ shc_token ∧
          scan_token (fopen content) shc_token = .error .ReadFailed ∧
          read_qr dec inflate (fopen content) = ⟨[], some .ReadFailed, true⟩) := by
  refine ⟨?_, ?_, ?_⟩
  · intro h
    have h5 : 5 ≤ content.length := by
      have := congrArg List.length h
      simp [shc_token] at this
      omega
    simp only [read_qr, scan_token_long content h5, h, decide_True]
  · intro h5 h
    have hs := scan_token_long content h5
    rw [decide_eq_false h] at hs
    exact ⟨hs, by simp only [read_qr, hs]⟩
  · intro h5
    refine ⟨?_, scan_token_short content h5, by simp only [read_qr, scan_token_short content h5]⟩
    intro h
    have := congrArg List.length h
    simp [shc_token] at this
    omega

/-- Counterexample to C5 as stated: the three-byte input `shc` does not fail
with `BadPrefix`; `scan_token` ends the run with its read failure. -/
theorem c5_counterexample :
    [115, 104, 99].take 5 ≠ shc_token ∧
      read_qr spec_base64_decode_block stored_inflate (fopen [115, 104, 99]) =
        ⟨[], some .ReadFailed, true⟩ ∧
      (read_qr spec_base64_decode_block stored_inflate (fopen [115, 104, 99])).status ≠
        some .BadPrefix := by
  refine ⟨by decide, by rfl, ?_⟩
  have h : read_qr spec_base64_decode_block stored_inflate (fopen [115, 104, 99]) =
      ⟨[], some .ReadFailed, true⟩ := by rfl
  rw [h]
  decide

/-! ## Transcoding function and loop: claims C6 to C8 -/

/-- C6, transcoding function: for ASCII digits `a`, `b` the value computed by
the code, `45 + 10*(9-('9'-a)) + (9-('9'-b))`, equals
`45 + 10*(a-'0') + (b-'0')` and lies in `[45,144]`; when it is not 46 and at
most 127 the loop body stores `'+'` for 45, `'/'` for 95 and the value itself
otherwise. -/
theorem c6_transcoding_function (a b : Int) (ha : 48 ≤ a ∧ a ≤ 57) (hb : 48 ≤ b ∧ b ≤ 57) :
    pair_value a b = 45 + (10 * (a - 48) + (b - 48)) ∧
      45 ≤ pair_value a b ∧ pair_value a b ≤ 144 ∧
      (pair_value a b ≠ 46 → pair_value a b ≤ 127 →
        decode_pair ⟨a, b⟩ =
          .ok (some (if pair_value a b = 45 then 43
            else if pair_value a b = 95 then 47 else (pair_value a b).toNat))) := by
  have hval : pair_value a b = 45 + (10 * (a - 48) + (b - 48)) := by
    simp only [pair_value]; omega
  refine ⟨hval, by omega, by omega, ?_⟩
  intro h46 h127
  obtain ⟨x, rfl⟩ : ∃ x : Nat, a = (x : Int) := ⟨a.toNat, by omega⟩
  obtain ⟨y, rfl⟩ : ∃ y : Nat, b = (y : Int) := ⟨b.toNat, by omega⟩
  have hvp : ValidPair (x, y) := by
    refine ⟨by omega, by omega, ?_, ?_⟩ <;> simp only <;> omega
  have := decode_pair_valid (x, y) hvp
  simp only at this
  rw [this]
  simp only [spec_char]
  congr 2
  rw [hval]
  split_ifs <;> omega

/-- Witness of C6: the pair `"20"`, of value 65. -/
theorem c6_transcoding_function_witness :
    pair_value 50 48 = 45 + (10 * (50 - 48) + (48 - 48)) ∧
      45 ≤ pair_value 50 48 ∧ pair_value 50 48 ≤ 144 ∧
      (pair_value 50 48 ≠ 46 → pair_value 50 48 ≤ 127 →
        decode_pair ⟨50, 48⟩ =
          .ok (some (if pair_value 50 48 = 45 then 43
            else if pair_value 50 48 = 95 then 47 else (pair_value 50 48).toNat))) :=
  c6_transcoding_function 50 48 (by decide) (by decide)

/-- C7, ASCII range rejection: for ASCII digits `a`, `b` the loop body fails
with `NotAscii` exactly when `45 + 10*(a-'0') + (b-'0') > 127`, that is exactly
for the pairs `"83"` to `"99"`; the transcoder and the section decoder fail so
when they reach such a pair, and no character above 127 is ever stored. -/
theorem c7_ascii_range_rejection (dec : Base64Decoder) (buf_size sz : Nat)
    (ps : List (Nat × Nat)) (a b : Nat) (rest buf : List Nat)
    (hv : ∀ p ∈ ps, ValidPair p) (hk : ps.length < buf_size)
    (ha : 48 ≤ a ∧ a ≤ 57) (hb : 48 ≤ b ∧ b ≤ 57) :
    (decode_pair ⟨(a : Int), (b : Int)⟩ = .error .NotAscii ↔
        127 < 45 + (10 * (a - 48) + (b - 48))) ∧
      (127 < 45 + (10 * (a - 48) + (b - 48)) ↔
        83 ≤ 10 * (a - 48) + (b - 48) ∧ 10 * (a - 48) + (b - 48) ≤ 99) ∧
      (127 < 45 + (10 * (a - 48) + (b - 48)) →
        transcode_loop buf_size buf_size ⟨sz, pairs_text ps ++ a :: b :: rest⟩ [] =
            .error .NotAscii ∧
          decode_qr_section_into_ascii dec ⟨sz, pairs_text ps ++ a :: b :: rest⟩ buf buf_size =
            .error .NotAscii) ∧
      (∀ (fp fp1 : FILE) (out : List Nat),
        transcode_loop buf_size buf_size fp [] = .ok (out, fp1) → ∀ c ∈ out, c ≤ 127) := by
  have hiff : decode_pair ⟨(a : Int), (b : Int)⟩ = .error .NotAscii ↔
      127 < 45 + (10 * (a - 48) + (b - 48)) := by
    rw [decode_pair_not_ascii (a : Int) (b : Int) (by omega) (by omega)]
    omega
  refine ⟨hiff, by omega, ?_, ?_⟩
  · intro hgt
    have h1 : transcode_loop buf_size buf_size ⟨sz, pairs_text ps ++ a :: b :: rest⟩ [] =
        .error .NotAscii := by
      rw [transcode_loop_room buf_size sz ps _ hv hk]
      exact transcode_loop_error buf_size sz a b rest _ _ _ (by omega) (by simpa using hk)
        (hiff.mpr hgt)
    exact ⟨h1, by simp only [decode_qr_section_into_ascii, h1]⟩
  · intro fp fp1 out h
    exact transcode_loop_forall (fun c => c ≤ 127) buf_size decode_pair_some_le buf_size fp []
      out fp1 (by simp) h

/-- Witness of C7: the pair `"83"`, of value 128, after one well-formed pair. -/
theorem c7_ascii_range_rejection_witness :
    (decode_pair ⟨((56 : Nat) : Int), ((51 : Nat) : Int)⟩ = .error .NotAscii ↔
        127 < 45 + (10 * (56 - 48) + (51 - 48))) ∧
      (127 < 45 + (10 * (56 - 48) + (51 - 48)) ↔
        83 ≤ 10 * (56 - 48) + (51 - 48) ∧ 10 * (56 - 48) + (51 - 48) ≤ 99) ∧
      (127 < 45 + (10 * (56 - 48) + (51 - 48)) →
        transcode_loop 9 9 ⟨9, pairs_text [(50, 48)] ++ 56 :: 51 :: []⟩ [] =
            .error .NotAscii ∧
          decode_qr_section_into_ascii spec_base64_decode_block
              ⟨9, pairs_text [(50, 48)] ++ 56 :: 51 :: []⟩ (List.replicate 9 0) 9 =
            .error .NotAscii) ∧
      (∀ (fp fp1 : FILE) (out : List Nat),
        transcode_loop 9 9 fp [] = .ok (out, fp1) → ∀ c ∈ out, c ≤ 127) :=
  c7_ascii_range_rejection spec_base64_decode_block 9 9 [(50, 48)] 56 51 []
    (List.replicate 9 0) (by decide) (by decide) (by decide) (by decide)

/-- C8, early stop without error: on a stream of `n` well-formed
non-delimiter pairs and with capacity `cap` the transcoder ends without error,
stores the characters of the first `min n cap` pairs in input order and
consumes exactly `2 * min n cap` input characters (the whole stream when
`n < cap`); the count returned by the section decoder is the number of
characters stored and does not exceed `cap`. -/
theorem c8_early_stop (dec : Base64Decoder) (cap sz : Nat) (ps : List (Nat × Nat))
    (buf : List Nat) (hv : ∀ p ∈ ps, ValidPair p) :
    transcode_loop cap cap ⟨sz, pairs_text ps⟩ [] =
        .ok ((ps.map spec_char).take cap,
          ⟨sz, (pairs_text ps).drop (2 * min ps.length cap)⟩) ∧
      ((ps.map spec_char).take cap).length = min ps.length cap ∧
      min ps.length cap ≤ cap ∧
      (ps.length < cap → (pairs_text ps).drop (2 * min ps.length cap) = []) ∧
      decode_qr_section_into_ascii dec ⟨sz, pairs_text ps⟩ buf cap =
        (match dec ((ps.map spec_char).take cap) with
          | none => .error .InvalidBase64
          | some plain =>
            .ok (min ps.length cap, plain ++ buf.drop plain.length,
              ⟨sz, (pairs_text ps).drop (2 * min ps.length cap)⟩)) := by
  have hlen : ((ps.map spec_char).take cap).length = min ps.length cap := by
    simp [Nat.min_comm]
  have h1 : transcode_loop cap cap ⟨sz, pairs_text ps⟩ [] =
      .ok ((ps.map spec_char).take cap,
        ⟨sz, (pairs_text ps).drop (2 * min ps.length cap)⟩) := by
    by_cases hn : ps.length < cap
    · have h := transcode_loop_room cap sz ps [] hv hn
      rw [List.append_nil] at h
      rw [h, transcode_loop_eof, List.take_of_length_le (by simp; omega),
        List.drop_of_length_le (by rw [pairs_text_length, Nat.min_eq_left (by omega)])]
    · have h := transcode_loop_full cap sz ps [] hv (by omega)
      rw [List.append_nil, List.append_nil] at h
      rw [h, pairs_text_drop, Nat.min_eq_right (by omega)]
  refine ⟨h1, hlen, Nat.min_le_right _ _, ?_, ?_⟩
  · intro hn
    exact List.drop_of_length_le (by rw [pairs_text_length, Nat.min_eq_left (by omega)])
  · simp only [decode_qr_section_into_ascii, h1, hlen]

/-- Witness of C8: three pairs `"20"`, `"21"`, `"22"` with capacity 2. -/
theorem c8_early_stop_witness :
    transcode_loop 2 2 ⟨11, pairs_text [(50, 48), (50, 49), (50, 50)]⟩ [] =
        .ok ([65, 66], ⟨11, [50, 50]⟩) ∧
      ([65, 66] : List Nat).length = 2 ∧
      2 ≤ 2 ∧
      (3 < 2 → ([50, 50] : List Nat) = []) ∧
      decode_qr_section_into_ascii spec_base64_decode_block
          ⟨11, pairs_text [(50, 48), (50, 49), (50, 50)]⟩ (List.replicate 2 0) 2 =
        .ok (2, [0, 0], ⟨11, [50, 50]⟩) :=
  c8_early_stop spec_base64_decode_block 2 11 [(50, 48), (50, 49), (50, 50)]
    (List.replicate 2 0) (by decide)

/-! ## Payload packing and output: claims C9 and C10 -/

/-- C9, word packing preserves bytes: for the first `n` bytes of the decoded
buffer the packing loop produces `ceil(n/4)` words, word `j` being
`b[4j] + 2^8*b[4j+1] + 2^16*b[4j+2] + 2^24*b[4j+3]` with the bytes from index
`n` on taken as 0, so that the little-endian memory image of the words is the
`n` bytes in order followed by 0 to 3 zero bytes. -/
theorem c9_word_packing (buf : List Nat) (n : Nat) (hn : n ≤ buf.length)
    (hb : ∀ b ∈ buf, b < 256) :
    (pack_words buf n).length = (n + 3) / 4 ∧
      (∀ j, j < (n + 3) / 4 →
        (pack_words buf n).getD j 0 =
          padded_byte buf n (4 * j) + 2 ^ 8 * padded_byte buf n (4 * j + 1) +
            2 ^ 16 * padded_byte buf n (4 * j + 2) + 2 ^ 24 * padded_byte buf n (4 * j + 3)) ∧
      wide_bytes (pack_words buf n) = buf.take n ++ List.replicate ((4 - n % 4) % 4) 0 ∧
      (4 - n % 4) % 4 ≤ 3 := by
  refine ⟨?_, ?_, ?_, by omega⟩
  · rw [pack_words_eq, List.length_map, List.length_range]
  · intro j hj
    rw [pack_words_eq, List.getD_eq_getElem _ _ (by simpa using hj), List.getElem_map,
      List.getElem_range, pack_word_eq buf n (4 * j) hb (by omega)]
  · rw [pack_words_eq, wide_bytes_range buf n hn hb _ (le_refl _)]
    apply List.take_of_length_le
    rw [List.length_append, List.length_take, List.length_replicate, Nat.min_eq_left hn]
    omega

/-- Witness of C9: six bytes are packed into two words, the second one padded
with two zero bytes. -/
theorem c9_word_packing_witness :
    (pack_words [1, 4, 0, 251, 255, 72, 9, 9] 6).length = 2 ∧
      (∀ j, j < (6 + 3) / 4 →
        (pack_words [1, 4, 0, 251, 255, 72, 9, 9] 6).getD j 0 =
          padded_byte [1, 4, 0, 251, 255, 72, 9, 9] 6 (4 * j) +
            2 ^ 8 * padded_byte [1, 4, 0, 251, 255, 72, 9, 9] 6 (4 * j + 1) +
            2 ^ 16 * padded_byte [1, 4, 0, 251, 255, 72, 9, 9] 6 (4 * j + 2) +
            2 ^ 24 * padded_byte [1, 4, 0, 251, 255, 72, 9, 9] 6 (4 * j + 3)) ∧
      wide_bytes (pack_words [1, 4, 0, 251, 255, 72, 9, 9] 6) =
        [1, 4, 0, 251, 255, 72] ++ [0, 0] ∧
      (4 - 6 % 4) % 4 ≤ 3 :=
  c9_word_packing [1, 4, 0, 251, 255, 72, 9, 9] 6 (by decide) (by decide)

/-- C10, payload NUL truncation: when the section decoder succeeds and the
inflater writes the bytes `d` into the zeroed output buffer of `4 * file_size`
bytes, `read_jws_payload` writes exactly the bytes of `d` before its first NUL,
all of `d` when it holds no NUL, and never a byte beyond `d`. -/
theorem c10_payload_nul_truncation (dec : Base64Decoder) (inflate : Inflater) (fp fp1 : FILE)
    (n : Nat) (buf1 d : List Nat)
    (hsec : decode_qr_section_into_ascii dec fp (List.replicate fp.st_size 0) fp.st_size =
      .ok (n, buf1, fp1))
    (hinf : inflate ((wide_bytes (pack_words buf1 n)).take n) (fp.st_size * 4) = some d)
    (hfit : d.length ≤ fp.st_size * 4) :
    read_jws_payload dec inflate fp = .ok (d.takeWhile (fun c => c != 0), fp1) ∧
      emit_payload (d ++ List.replicate (fp.st_size * 4 - d.length) 0) (fp.st_size * 4) =
        d.takeWhile (fun c => c != 0) ∧
      (d.takeWhile (fun c => c != 0)) <+: d ∧
      ((∀ c ∈ d, c ≠ 0) → d.takeWhile (fun c => c != 0) = d) ∧
      (∀ pre post, d = pre ++ 0 :: post → (∀ c ∈ pre, c ≠ 0) →
        d.takeWhile (fun c => c != 0) = pre) := by
  have hemit := emit_payload_eq d (fp.st_size * 4) hfit
  refine ⟨?_, hemit, List.takeWhile_prefix _, ?_, ?_⟩
  · simp only [read_jws_payload, get_filesize, hsec, hinf, hemit]
  · intro h
    rw [List.takeWhile_eq_self_iff]
    intro c hc
    simpa using h c hc
  · intro pre post hd hpre
    subst hd
    rw [List.takeWhile_append_of_pos]
    · simp
    · intro c hc
      simpa using hpre c hc

/-- Witness of C10: the payload text of the stored-block stream of the bytes
`"Hi\0!"`; the section decodes to nine bytes, the inflater writes the four
bytes and `read_jws_payload` writes `"Hi"`. -/
theorem c10_payload_nul_truncation_witness :
    (decode_qr_section_into_ascii spec_base64_decode_block
        ⟨31, [50, 48, 51, 54, 51, 54, 50, 48, 48, 48, 53, 48, 49, 50, 50, 56, 53, 50, 51, 54,
          50, 48, 53, 57]⟩ (List.replicate 31 0) 31 =
      .ok (12, [1, 4, 0, 251, 255, 72, 105, 0, 33] ++ List.replicate 22 0, ⟨31, []⟩)) ∧
      stored_inflate
          ((wide_bytes (pack_words ([1, 4, 0, 251, 255, 72, 105, 0, 33] ++
            List.replicate 22 0) 12)).take 12) (31 * 4) = some [72, 105, 0, 33] ∧
      read_jws_payload spec_base64_decode_block stored_inflate
          ⟨31, [50, 48, 51, 54, 51, 54, 50, 48, 48, 48, 53, 48, 49, 50, 50, 56, 53, 50, 51, 54,
            50, 48, 53, 57]⟩ = .ok ([72, 105], ⟨31, []⟩) :=
  ⟨by rfl, by rfl,
    (c10_payload_nul_truncation spec_base64_decode_block stored_inflate
      ⟨31, [50, 48, 51, 54, 51, 54, 50, 48, 48, 48, 53, 48, 49, 50, 50, 56, 53, 50, 51, 54,
        50, 48, 53, 57]⟩ ⟨31, []⟩ 12 ([1, 4, 0, 251, 255, 72, 105, 0, 33] ++ List.replicate 22 0)
      [72, 105, 0, 33] (by rfl) (by rfl) (by decide)).1⟩

/-! ## Stored characters and malformed text: claims C11 to C13 -/

/-- C11, as amended: on every input on which the transcoder does not fail,
every character it stores is `'+'` or an ASCII value from 47 to 127 other than
`'_'`; the stored character is a character of the standard base64 alphabet
whenever the digit pair is that of a base64url character. -/
theorem c11_stored_characters (cap : Nat) (fp fp1 : FILE) (out : List Nat)
    (h : transcode_loop cap cap fp [] = .ok (out, fp1)) :
    (∀ c ∈ out, c = 43 ∨ (47 ≤ c ∧ c ≤ 127 ∧ c ≠ 95)) ∧
      (∀ v, v < 64 →
        decode_pair ⟨((qr_pair (b64_char true v)).1 : Int), ((qr_pair (b64_char true v)).2 : Int)⟩ =
            .ok (some (b64_char false v)) ∧
          is_b64_char (b64_char false v) = true) := by
  refine ⟨?_, ?_⟩
  · exact transcode_loop_forall (fun c => c = 43 ∨ (47 ≤ c ∧ c ≤ 127 ∧ c ≠ 95)) cap
      decode_pair_some_range cap fp [] out fp1 (by simp) h
  · intro v hv
    obtain ⟨hvp, hsc⟩ := qr_pair_b64_char v hv
    refine ⟨?_, ?_⟩
    · rw [decode_pair_valid _ hvp, hsc]
    · revert v
      decide

/-- Witness of C11 as amended: the pairs `"20"`, `"00"`, `"50"`, `"13"` are
stored as `'A'`, `'+'`, `'/'` and `':'`. -/
theorem c11_stored_characters_witness :
    transcode_loop 9 9 ⟨13, [50, 48, 48, 48, 53, 48, 49, 51]⟩ [] =
        .ok ([65, 43, 47, 58], ⟨13, []⟩) ∧
      (∀ c ∈ [65, 43, 47, 58], c = 43 ∨ (47 ≤ c ∧ c ≤ 127 ∧ c ≠ 95)) :=
  ⟨by rfl, (c11_stored_characters 9 ⟨13, [50, 48, 48, 48, 53, 48, 49, 51]⟩ ⟨13, []⟩
    [65, 43, 47, 58] (by rfl)).1⟩

/-- Counterexample to C11 as stated: on the section text `"13"` the transcoder
does not fail and stores the character `':'` (58), which is no character of the
standard base64 alphabet. -/
theorem c11_counterexample :
    transcode_loop 7 7 ⟨7, [49, 51]⟩ [] = .ok ([58], ⟨7, []⟩) ∧ is_b64_char 58 = false := by
  exact ⟨by rfl, by decide⟩

/-- C12, delimiter never emitted: whatever the input and the capacity, no
character stored by the loop body, and so none in the buffer the transcoder
hands over, is 46 (`'.'`), 45 (`'-'`) or 95 (`'_'`). -/
theorem c12_delimiter_never_stored (cap : Nat) (fp fp1 : FILE) (out : List Nat)
    (h : transcode_loop cap cap fp [] = .ok (out, fp1)) :
    (∀ c ∈ out, c ≠ 46 ∧ c ≠ 45 ∧ c ≠ 95) ∧
      (∀ pr c, decode_pair pr = .ok (some c) → c ≠ 46 ∧ c ≠ 45 ∧ c ≠ 95) := by
  refine ⟨?_, decode_pair_some_ne⟩
  exact transcode_loop_forall (fun c => c ≠ 46 ∧ c ≠ 45 ∧ c ≠ 95) cap
    decode_pair_some_ne cap fp [] out fp1 (by simp) h

/-- Witness of C12: the pairs `"00"`, `"50"`, `"20"` and the delimiter. -/
theorem c12_delimiter_never_stored_witness :
    transcode_loop 9 9 ⟨13, [48, 48, 53, 48, 50, 48, 48, 49]⟩ [] =
        .ok ([43, 47, 65], ⟨13, []⟩) ∧
      (∀ c ∈ [43, 47, 65], c ≠ 46 ∧ c ≠ 45 ∧ c ≠ 95) :=
  ⟨by rfl, (c12_delimiter_never_stored 9 ⟨13, [48, 48, 53, 48, 50, 48, 48, 49]⟩ ⟨13, []⟩
    [43, 47, 65] (by rfl)).1⟩

/-- C13, malformed base64 is rejected: when the text handed over by the
transcoder, taken as a body that does not end in `=` followed by `k`
characters `=`, holds a character outside the standard base64 alphabet in its
body or has incorrect padding (`k > 0` with a length that is no multiple of 4,
or `k > 2`), the base64 decoder of the specification reports a failure and
`decode_qr_section_into_ascii` fails with `InvalidBase64`; with any decoder the
function fails so exactly when the decoder reports a failure. -/
theorem c13_malformed_base64_rejected (fp fp1 : FILE) (buf body : List Nat) (cap k : Nat)
    (ht : transcode_loop cap cap fp [] = .ok (body ++ List.replicate k 61, fp1))
    (hbody : ∀ hl : body ≠ [], body.getLast hl ≠ 61)
    (hbad : (∃ c ∈ body, is_b64_char c = false) ∨
      (0 < k ∧ ((body.length + k) % 4 ≠ 0 ∨ 2 < k))) :
    spec_base64_decode_block (body ++ List.replicate k 61) = none ∧
      decode_qr_section_into_ascii spec_base64_decode_block fp buf cap =
        .error .InvalidBase64 ∧
      (∀ dec : Base64Decoder,
        decode_qr_section_into_ascii dec fp buf cap = .error .InvalidBase64 ↔
          dec (body ++ List.replicate k 61) = none) := by
  have hrej := spec_decoder_rejects body k hbody hbad
  refine ⟨hrej, by simp only [decode_qr_section_into_ascii, ht, hrej], ?_⟩
  intro dec
  simp only [decode_qr_section_into_ascii, ht]
  cases dec (body ++ List.replicate k 61) <;> simp

/-- Witness of C13: the section text `"132016"` is transcoded to `":A="`, whose
body holds the character `':'`. -/
theorem c13_malformed_base64_rejected_witness :
    transcode_loop 11 11 ⟨11, [49, 51, 50, 48, 49, 54]⟩ [] =
        .ok ([58, 65] ++ List.replicate 1 61, ⟨11, []⟩) ∧
      spec_base64_decode_block ([58, 65] ++ List.replicate 1 61) = none ∧
      decode_qr_section_into_ascii spec_base64_decode_block ⟨11, [49, 51, 50, 48, 49, 54]⟩
        (List.replicate 11 0) 11 = .error .InvalidBase64 :=
  have h := c13_malformed_base64_rejected ⟨11, [49, 51, 50, 48, 49, 54]⟩ ⟨11, []⟩
    (List.replicate 11 0) [58, 65] 11 1 (by rfl) (by decide) (Or.inl ⟨58, by decide, by decide⟩)
  ⟨by rfl, h.1, h.2.1⟩

/-! ## Payload and header stages: claims C14 to C16 -/

/-- C14, as amended: when the decoded payload bytes `c` are a raw DEFLATE
compression of `P` and `P` is at most `4 * file_size` bytes long, regrouping
the bytes into words hands the inflater `c` followed by zero bytes, inflating
reproduces exactly `P`, and `read_jws_payload` writes `P` up to its first NUL;
when `P` is longer the stage fails with `DecompressionFailed`; and whenever the
inflater reports a failure the stage fails with `DecompressionFailed` and
`read_qr` writes no payload byte after the header line. -/
theorem c14_payload_round_trip (pad : Bool) (dec : Base64Decoder)
    (hdec : DecodesBase64 pad dec) (inflate : Inflater) (c P : List Nat)
    (hc : ∀ b ∈ c, b < 256) (hdef : RawDeflateOf inflate c P) (size : Nat)
    (hsize : (b64_encode true pad c).length < size) :
    decode_qr_section_into_ascii dec ⟨size, qr_encode (b64_encode true pad c)⟩
        (List.replicate size 0) size =
      .ok ((b64_encode true pad c).length, c ++ (List.replicate size 0).drop c.length,
        ⟨size, []⟩) ∧
      (wide_bytes (pack_words (c ++ (List.replicate size 0).drop c.length)
          (b64_encode true pad c).length)).take (b64_encode true pad c).length =
        c ++ List.replicate ((b64_encode true pad c).length - c.length) 0 ∧
      (P.length ≤ size * 4 →
        inflate (c ++ List.replicate ((b64_encode true pad c).length - c.length) 0) (size * 4) =
            some P ∧
          read_jws_payload dec inflate ⟨size, qr_encode (b64_encode true pad c)⟩ =
            .ok (P.takeWhile (fun x => x != 0), ⟨size, []⟩)) ∧
      (size * 4 < P.length →
        read_jws_payload dec inflate ⟨size, qr_encode (b64_encode true pad c)⟩ =
          .error .DecompressionFailed) ∧
      (∀ (fp fp0 fp1 : FILE) (n : Nat) (buf1 header : List Nat),
        decode_qr_section_into_ascii dec fp (List.replicate fp.st_size 0) fp.st_size =
          .ok (n, buf1, fp1) →
        inflate ((wide_bytes (pack_words buf1 n)).take n) (fp.st_size * 4) = none →
        read_jws_payload dec inflate fp = .error .DecompressionFailed ∧
          (read_jws_header dec fp0 = .ok (header, fp) →
            read_sections dec inflate fp0 =
              ⟨header ++ [10], some .DecompressionFailed, true⟩)) := by
  have hpay := read_jws_payload_b64 pad dec hdec inflate c P hc hdef size hsize
  refine ⟨decode_section_b64_eof pad dec hdec c hc size size _ hsize,
    packed_stream_eq c _ size hc (b64_encode_length_ge true pad c) (by omega), ?_, ?_, ?_⟩
  · intro hfit
    refine ⟨?_, by rw [hpay, if_pos hfit]⟩
    rw [hdef, if_pos hfit]
  · intro hbig
    rw [hpay, if_neg (by omega)]
  · intro fp fp0 fp1 n buf1 header hsec hinf
    have hfail : read_jws_payload dec inflate fp = .error .DecompressionFailed := by
      simp only [read_jws_payload, get_filesize, hsec, hinf]
    refine ⟨hfail, ?_⟩
    intro hhead
    simp only [read_sections, hhead, hfail, aborts, Bool.not_false]

/-- Witness of C14 as amended: the stream zlib writes for the payload
`{"iss":"https://example.org"}`, in a file of 131 bytes. -/
theorem c14_payload_round_trip_witness :
    rfc1951_inflate
        (payload_stream ++
          List.replicate ((b64_encode true false payload_stream).length - payload_stream.length)
            0) (131 * 4) = some payload_json ∧
      read_jws_payload spec_base64_decode_block rfc1951_inflate
          ⟨131, qr_encode (b64_encode true false payload_stream)⟩ =
        .ok (payload_json.takeWhile (fun x => x != 0), ⟨131, []⟩) :=
  (c14_payload_round_trip false spec_base64_decode_block (spec_decoder_decodes false)
    rfc1951_inflate payload_stream payload_json (by decide) payload_stream_inflates 131
    (by decide)).2.2.1 (by decide)

/-- Counterexample to C14 as stated. First, the six bytes `4b 4c 1c 18 00 00`
are a raw DEFLATE compression of 120 bytes `'a'`, yet on the card that carries
them after the header `{}` (29 bytes, so 116 bytes of output space) the payload
stage fails with `DecompressionFailed` instead of reproducing the 120 bytes.
Second, the stream of the payload `{"iss":"https://example.org"}` with one bit
of its first byte flipped is a corrupted stream, yet the run does not fail: it
writes the bytes `["iss":"https://example.org"}`. -/
theorem c14_counterexample :
    (rfc1951_inflate [75, 76, 28, 24, 0, 0] 120 = some (List.replicate 120 97) ∧
        (card_text false [123, 125] [75, 76, 28, 24, 0, 0]).length = 29 ∧
        read_qr spec_base64_decode_block rfc1951_inflate
            (fopen (card_text false [123, 125] [75, 76, 28, 24, 0, 0])) =
          ⟨[123, 125] ++ [10], some .DecompressionFailed, true⟩) ∧
      (rfc1951_inflate payload_stream 29 = some payload_json ∧
        139 :: payload_stream.tail ≠ payload_stream ∧
        read_qr spec_base64_decode_block rfc1951_inflate
            (fopen (card_text false header_json (139 :: payload_stream.tail))) =
          ⟨header_json ++ [10] ++ 91 :: payload_json.tail, none, true⟩ ∧
        91 :: payload_json.tail ≠ payload_json) := by
  have hl1 : (card_text false [123, 125] [75, 76, 28, 24, 0, 0]).length = 29 := by rfl
  have hl2 : (card_text false header_json (139 :: payload_stream.tail)).length = 131 := by rfl
  refine ⟨⟨?_, hl1, ?_⟩, ?_, by decide, ?_, by decide⟩
  · have h := run_stream_inflates [] 120
    rw [List.append_nil, if_pos (by rw [List.length_replicate])] at h
    exact h
  · rw [read_qr_card false spec_base64_decode_block (spec_decoder_decodes false)
      rfc1951_inflate [123, 125] [75, 76, 28, 24, 0, 0] (List.replicate 120 97)
      (by decide) (by decide) run_stream_inflates,
      if_neg (by rw [hl1, List.length_replicate]; omega)]
    rfl
  · have h := payload_stream_inflates [] 29
    rw [List.append_nil, if_pos (by decide)] at h
    exact h
  · rw [read_qr_card false spec_base64_decode_block (spec_decoder_decodes false)
      rfc1951_inflate header_json (139 :: payload_stream.tail) (91 :: payload_json.tail)
      (by decide) (by decide) flipped_stream_inflates,
      if_pos (by rw [hl2]; decide)]
    rfl

/-- C15, end-to-end scenario: on the input made of `shc:/`, the digit pairs of
the base64 text `eyJhbGciOiJFUzI1NiJ9`, the delimiter pair `01` and the digit
pairs of the base64url text of a raw DEFLATE compression of
`{"iss":"https://example.org"}`, `read_qr` writes the header
`{"alg":"ES256"}`, a line break and then exactly
`{"iss":"https://example.org"}`, and returns. -/
theorem c15_end_to_end (pad : Bool) (dec : Base64Decoder) (hdec : DecodesBase64 pad dec)
    (inflate : Inflater) (c : List Nat) (hc : ∀ b ∈ c, b < 256)
    (hdef : RawDeflateOf inflate c payload_json) :
    read_qr dec inflate
        (fopen (shc_token ++ qr_encode header_text ++ qr_delimiter ++
          qr_encode (b64_encode true pad c))) =
      ⟨header_json ++ [10] ++ payload_json, none, true⟩ := by
  have h := read_qr_card pad dec hdec inflate header_json c payload_json (by decide) hc hdef
  have hlen := card_text_length pad header_json c
  have hpl : payload_json.length = 29 := by rfl
  rw [if_pos (by rw [hlen, hpl, header_text_eq]; simp only [header_text, List.length_cons,
    List.length_nil]; omega)] at h
  simp only [card_text, header_text_eq] at h
  rw [h]
  rfl

/-- Witness of C15: the base64 decoder and the inflater of the specification on
the stream zlib writes for the payload. -/
theorem c15_end_to_end_witness :
    b64_encode true false payload_stream =
        [113, 49, 98, 75, 76, 67, 53, 87, 115, 108, 76, 75, 75, 67, 107, 112, 75, 76, 98, 83,
          49, 48, 45, 116, 83, 77, 119, 116, 121, 69, 110, 86, 121, 121, 57, 75, 86, 54, 111,
          70, 65, 65] ∧
      read_qr spec_base64_decode_block rfc1951_inflate
          (fopen (shc_token ++ qr_encode header_text ++ qr_delimiter ++
            qr_encode (b64_encode true false payload_stream))) =
        ⟨header_json ++ [10] ++ payload_json, none, true⟩ :=
  ⟨by rfl, c15_end_to_end false spec_base64_decode_block (spec_decoder_decodes false)
    rfc1951_inflate payload_stream (by decide) payload_stream_inflates⟩

/-- C16, as amended: the bytes `read_jws_header` writes are the bytes produced
by base64-decoding the header section up to and excluding their first NUL
byte: all of them, unaltered, when they hold no NUL (the decoded bytes being
fewer than the file size, as they are in `read_qr`). -/
theorem c16_header_output (dec : Base64Decoder) (fp fp1 : FILE) (b64 plain : List Nat)
    (ht : transcode_loop fp.st_size fp.st_size fp [] = .ok (b64, fp1))
    (hd : dec b64 = some plain) (hlen : plain.length < fp.st_size) :
    read_jws_header dec fp = .ok (plain.takeWhile (fun c => c != 0), fp1) ∧
      ((∀ c ∈ plain, c ≠ 0) → read_jws_header dec fp = .ok (plain, fp1)) ∧
      (∀ pre post, plain = pre ++ 0 :: post → (∀ c ∈ pre, c ≠ 0) →
        read_jws_header dec fp = .ok (pre, fp1)) := by
  have h := read_jws_header_eq dec fp fp1 b64 plain ht hd hlen
  refine ⟨h, ?_, ?_⟩
  · intro hnz
    rw [h, List.takeWhile_eq_self_iff.mpr (fun c hc => by simpa using hnz c hc)]
  · intro pre post hp hnz
    rw [h, hp, List.takeWhile_append_of_pos (fun c hc => by simpa using hnz c hc)]
    simp

/-- Witness of C16 as amended: the header section of `eyJhbGciOiJFUzI1NiJ9` in
a file of 47 bytes. -/
theorem c16_header_output_witness :
    read_jws_header spec_base64_decode_block ⟨47, qr_encode header_text ++ qr_delimiter⟩ =
      .ok (header_json, ⟨47, []⟩) :=
  (c16_header_output spec_base64_decode_block ⟨47, qr_encode header_text ++ qr_delimiter⟩
    ⟨47, []⟩ header_text header_json (by rfl) (by rfl) (by decide)).2.1 (by decide)

/-- Counterexample to C16 as stated: in the file `shc:/3636212201` the header
section decodes to the three bytes `41 00 42`, of which `read_jws_header`
writes the first only. -/
theorem c16_counterexample :
    decode_qr_section_into_ascii spec_base64_decode_block
        ⟨15, [51, 54, 51, 54, 50, 49, 50, 50, 48, 49]⟩ (List.replicate 15 0) 15 =
      .ok (4, [65, 0, 66] ++ List.replicate 12 0, ⟨15, []⟩) ∧
      read_jws_header spec_base64_decode_block
        ⟨15, [51, 54, 51, 54, 50, 49, 50, 50, 48, 49]⟩ = .ok ([65], ⟨15, []⟩) := by
  exact ⟨by rfl, by rfl⟩

/-! ## Sizes, allocation and capacity: claims C17 to C19 -/

/-- C17, inflate output sizing: whenever the section decoder returns the
section size `n` in `read_jws_payload`, `n` does not exceed the file size, the
inflater is handed exactly `n` input bytes and `4 * file_size` bytes of output
space, and so the output space is at least four times the input size. -/
theorem c17_inflate_output_sizing (dec : Base64Decoder) (inflate : Inflater) (fp fp1 : FILE)
    (n : Nat) (buf1 : List Nat)
    (h : decode_qr_section_into_ascii dec fp (List.replicate fp.st_size 0) fp.st_size =
      .ok (n, buf1, fp1)) :
    n ≤ fp.st_size ∧
      ((wide_bytes (pack_words buf1 n)).take n).length = n ∧
      4 * ((wide_bytes (pack_words buf1 n)).take n).length ≤ fp.st_size * 4 ∧
      read_jws_payload dec inflate fp =
        (match inflate ((wide_bytes (pack_words buf1 n)).take n) (fp.st_size * 4) with
          | none => .error .DecompressionFailed
          | some written =>
            .ok (emit_payload
              (written ++ List.replicate (fp.st_size * 4 - written.length) 0)
              (fp.st_size * 4), fp1)) := by
  obtain ⟨b64, plain, ht, _, hn, _⟩ := decode_qr_section_ok dec fp fp1 _ buf1 _ n h
  have hle : n ≤ fp.st_size := by
    rw [hn]
    exact transcode_loop_length_le fp.st_size fp.st_size fp [] b64 fp1 (by simp) ht
  have hlen : ((wide_bytes (pack_words buf1 n)).take n).length = n := by
    rw [List.length_take, wide_bytes_length, pack_words_length]
    omega
  refine ⟨hle, hlen, by omega, ?_⟩
  simp only [read_jws_payload, get_filesize, h]

/-- Witness of C17: the payload text of the stored-block stream of `"Hi\0!"` in
a file of 31 bytes; twelve input bytes meet 124 bytes of output space. -/
theorem c17_inflate_output_sizing_witness :
    12 ≤ 31 ∧
      ((wide_bytes (pack_words ([1, 4, 0, 251, 255, 72, 105, 0, 33] ++
        List.replicate 22 0) 12)).take 12).length = 12 ∧
      4 * ((wide_bytes (pack_words ([1, 4, 0, 251, 255, 72, 105, 0, 33] ++
        List.replicate 22 0) 12)).take 12).length ≤ 31 * 4 :=
  have h := c17_inflate_output_sizing spec_base64_decode_block stored_inflate
    ⟨31, [50, 48, 51, 54, 51, 54, 50, 48, 48, 48, 53, 48, 49, 50, 50, 56, 53, 50, 51, 54,
      50, 48, 53, 57]⟩ ⟨31, []⟩ 12 ([1, 4, 0, 251, 255, 72, 105, 0, 33] ++ List.replicate 22 0)
    (by rfl)
  ⟨h.1, h.2.1, h.2.2.1⟩

/-- C18, evaluated on the card of the payload `{"iss":"https://example.org"}`:
the payload section has 42 characters, so `wide` is allocated with 42 bytes,
while the packing loop stores 11 words, the last of which ends at byte 44. In
general the words stored end beyond the allocation whenever the section size
is no multiple of 4. -/
theorem c18_word_write_out_of_bounds :
    decode_qr_section_into_ascii spec_base64_decode_block
        ⟨131, qr_encode (b64_encode true false payload_stream)⟩ (List.replicate 131 0) 131 =
      .ok (42, payload_stream ++ (List.replicate 131 0).drop 31, ⟨131, []⟩) ∧
      (pack_words (payload_stream ++ (List.replicate 131 0).drop 31) 42).length = 11 ∧
      ¬ (4 * (10 + 1) ≤ 42) ∧
      (∀ (buf : List Nat) (n : Nat), n % 4 ≠ 0 → n < 4 * (pack_words buf n).length) ∧
      (∀ (buf : List Nat) (n : Nat), n % 4 = 0 → 4 * (pack_words buf n).length = n) := by
  refine ⟨?_, ?_, by decide, ?_, ?_⟩
  · exact decode_section_b64_eof false spec_base64_decode_block (spec_decoder_decodes false)
      payload_stream (by decide) 131 131 _ (by decide)
  · rw [pack_words_length]
  · intro buf n hn
    rw [pack_words_length]
    omega
  · intro buf n hn
    rw [pack_words_length]
    omega

/-- C19, capacity is never the stopping reason in `read_qr`. For a file of size
`S` that starts with the token, `read_qr` runs the two stages on the file read
up to its fifth byte. For a file of size `S` read that far or further: (1) the
transcoder, the section decoder, `read_jws_header` and `read_jws_payload` give
with the capacity `S` they use the result they give with any larger capacity;
(2) a section that ends without an error has stored the characters of
well-formed pairs, at most `(S-5)/2 < S` of them, has stopped right after the
delimiter pair that follows these pairs or at the end of the stream, and leaves
the file read up to its fifth byte or further again; for a decoder that yields
no more bytes than it is given characters, the NUL that `read_jws_header`
stores at index `S-1` changes no byte of the buffer, and the header written is
what the decoded bytes give; (3) on well-formed pairs followed by the
delimiter pair the header section ends right after the delimiter, and
`read_sections` runs the payload stage on the text that follows it, so no pair
is skipped. -/
theorem c19_capacity_never_stops (dec : Base64Decoder) (inflate : Inflater) (fp : FILE)
    (hpos : fp.unread.length + 5 ≤ fp.st_size) :
    (∀ (content : List Nat), content.take 5 = shc_token →
        read_qr dec inflate (fopen content) =
            read_sections dec inflate ⟨content.length, content.drop 5⟩ ∧
          (content.drop 5).length + 5 ≤ content.length) ∧
      (∀ cap, fp.st_size ≤ cap →
        transcode_loop cap cap fp [] = transcode_loop fp.st_size fp.st_size fp [] ∧
          decode_qr_section_into_ascii dec fp (List.replicate fp.st_size 0) cap =
            decode_qr_section_into_ascii dec fp (List.replicate fp.st_size 0) fp.st_size ∧
          read_jws_header dec fp =
            (match decode_qr_section_into_ascii dec fp (List.replicate fp.st_size 0) cap with
              | .error e => .error e
              | .ok (_, buf1, fp1) => .ok (printf_s (buf1.set (fp.st_size - 1) 0), fp1)) ∧
          read_jws_payload dec inflate fp =
            (match decode_qr_section_into_ascii dec fp (List.replicate fp.st_size 0) cap with
              | .error e => .error e
              | .ok (n, buf1, fp1) =>
                match inflate ((wide_bytes (pack_words buf1 n)).take n) (fp.st_size * 4) with
                | none => .error .DecompressionFailed
                | some written =>
                  .ok (emit_payload
                    (written ++ List.replicate (fp.st_size * 4 - written.length) 0)
                    (fp.st_size * 4), fp1))) ∧
      (∀ out fp1, transcode_loop fp.st_size fp.st_size fp [] = .ok (out, fp1) →
        out.length ≤ (fp.st_size - 5) / 2 ∧ out.length < fp.st_size ∧
          fp1.st_size = fp.st_size ∧ fp1.unread.length + 5 ≤ fp1.st_size ∧
          (∃ ps : List (Nat × Nat), (∀ p ∈ ps, ValidPair p) ∧ out = ps.map spec_char ∧
            (fp.unread = pairs_text ps ++ qr_delimiter ++ fp1.unread ∨
              (fp1.unread = [] ∧ ∃ l, l.length ≤ 1 ∧ fp.unread = pairs_text ps ++ l))) ∧
          (∀ plain, dec out = some plain →
            decode_qr_section_into_ascii dec fp (List.replicate fp.st_size 0) fp.st_size =
                .ok (out.length, plain ++ (List.replicate fp.st_size 0).drop plain.length,
                  fp1) ∧
              (plain.length ≤ out.length →
                (plain ++ (List.replicate fp.st_size 0).drop plain.length).set
                      (fp.st_size - 1) 0 =
                    plain ++ (List.replicate fp.st_size 0).drop plain.length ∧
                  read_jws_header dec fp =
                    .ok (printf_s (plain ++ (List.replicate fp.st_size 0).drop plain.length),
                      fp1) ∧
                  read_jws_header dec fp = .ok (plain.takeWhile (fun c => c != 0), fp1)))) ∧
      (∀ ps rest, (∀ p ∈ ps, ValidPair p) →
        fp.unread = pairs_text ps ++ qr_delimiter ++ rest →
        transcode_loop fp.st_size fp.st_size fp [] =
            .ok (ps.map spec_char, ⟨fp.st_size, rest⟩) ∧
          read_sections dec inflate fp =
            (match dec (ps.map spec_char) with
              | none => ⟨[], some .InvalidBase64, true⟩
              | some plain =>
                match read_jws_payload dec inflate ⟨fp.st_size, rest⟩ with
                | .error e =>
                  ⟨printf_s ((plain ++ (List.replicate fp.st_size 0).drop plain.length).set
                    (fp.st_size - 1) 0) ++ [10], some e, !aborts e⟩
                | .ok (payload, _) =>
                  ⟨printf_s ((plain ++ (List.replicate fp.st_size 0).drop plain.length).set
                    (fp.st_size - 1) 0) ++ [10] ++ payload, none, true⟩)) := by
  have hfree : ∀ cap, fp.st_size ≤ cap →
      transcode_loop cap cap fp [] = transcode_loop fp.st_size fp.st_size fp [] := by
    intro cap hcap
    exact transcode_loop_capacity_free cap fp.st_size cap fp.st_size fp [] (by omega) (by omega)
      (by simp only [List.length_nil]; omega) (by simp only [List.length_nil]; omega)
  have hsec : ∀ cap, fp.st_size ≤ cap →
      decode_qr_section_into_ascii dec fp (List.replicate fp.st_size 0) cap =
        decode_qr_section_into_ascii dec fp (List.replicate fp.st_size 0) fp.st_size := by
    intro cap hcap
    exact decode_qr_section_capacity_free dec fp _ cap fp.st_size (by omega) (by omega)
  refine ⟨?_, ?_, ?_, ?_⟩
  · intro content hc
    have h5 : 5 ≤ content.length := by
      have := congrArg List.length hc
      simp [shc_token] at this
      omega
    refine ⟨?_, by rw [List.length_drop]; omega⟩
    simp only [read_qr, scan_token_long content h5, hc, decide_True]
  · intro cap hcap
    refine ⟨hfree cap hcap, hsec cap hcap, ?_, ?_⟩
    · rw [hsec cap hcap]
      rfl
    · rw [hsec cap hcap]
      rfl
  · intro out fp1 h
    obtain ⟨hc, hsz⟩ := transcode_loop_consumed fp.st_size fp.st_size fp [] out fp1 h
    simp only [List.length_nil] at hc
    refine ⟨by omega, by omega, hsz, by omega, ?_, ?_⟩
    · obtain ⟨ps, hv, hout, hshape⟩ := transcode_loop_stops fp.st_size fp.st_size fp [] out fp1
        (by omega) (by simp only [List.length_nil]; omega) h
      exact ⟨ps, hv, by simpa using hout, hshape⟩
    · intro plain hd
      refine ⟨by simp only [decode_qr_section_into_ascii, h, hd], ?_⟩
      intro hpl
      have hset := set_zero_padding plain fp.st_size (fp.st_size - 1) (by omega)
      have hhead := read_jws_header_eq dec fp fp1 out plain h hd (by omega)
      refine ⟨hset, ?_, hhead⟩
      rw [hhead, printf_s, List.drop_replicate, takeWhile_append_zeros]
  · intro ps rest hv hun
    obtain ⟨sz, unread⟩ := fp
    simp only at hun hpos ⊢
    subst hun
    have hlen : 2 * ps.length + 2 + rest.length + 5 ≤ sz := by
      simp only [List.length_append, pairs_text_length, qr_delimiter, List.length_cons,
        List.length_nil] at hpos
      omega
    have ht : transcode_loop sz sz ⟨sz, pairs_text ps ++ qr_delimiter ++ rest⟩ [] =
        .ok (ps.map spec_char, ⟨sz, rest⟩) := by
      rw [List.append_assoc, transcode_loop_room sz sz ps _ hv (by omega)]
      exact transcode_loop_delimiter sz sz rest _ _ (by omega) (by simp; omega)
    refine ⟨ht, ?_⟩
    simp only [read_sections, read_jws_header, get_filesize, decode_qr_section_into_ascii, ht]
    cases hd : dec (ps.map spec_char) with
    | none => rfl
    | some plain => rfl

/-- Witness of C19: the card of the header `{}` and of the stored-block stream
of `Hi`, a file of 37 bytes, after its token. With every capacity from 37 on
the header section stores `e30` and ends right after the delimiter pair, the
header stage writes `{}`, and the payload stage starts at the first pair after
the delimiter and writes `Hi`. -/
theorem c19_capacity_never_stops_witness :
    (∀ cap, 37 ≤ cap →
        transcode_loop cap cap
            ⟨37, [53, 54, 48, 54, 48, 51, 48, 49, 50, 48, 51, 54, 51, 54, 50, 48, 48, 48, 53,
              48, 49, 50, 50, 56, 53, 50, 51, 54, 50, 48, 53, 57]⟩ [] =
          .ok ([101, 51, 48],
            ⟨37, [50, 48, 51, 54, 51, 54, 50, 48, 48, 48, 53, 48, 49, 50, 50, 56, 53, 50, 51,
              54, 50, 48, 53, 57]⟩)) ∧
      read_jws_header spec_base64_decode_block
          ⟨37, [53, 54, 48, 54, 48, 51, 48, 49, 50, 48, 51, 54, 51, 54, 50, 48, 48, 48, 53,
            48, 49, 50, 50, 56, 53, 50, 51, 54, 50, 48, 53, 57]⟩ =
        .ok ([123, 125],
          ⟨37, [50, 48, 51, 54, 51, 54, 50, 48, 48, 48, 53, 48, 49, 50, 50, 56, 53, 50, 51,
            54, 50, 48, 53, 57]⟩) ∧
      read_sections spec_base64_decode_block stored_inflate
          ⟨37, [53, 54, 48, 54, 48, 51, 48, 49, 50, 48, 51, 54, 51, 54, 50, 48, 48, 48, 53,
            48, 49, 50, 50, 56, 53, 50, 51, 54, 50, 48, 53, 57]⟩ =
        ⟨[123, 125, 10, 72, 105], none, true⟩ ∧
      read_qr spec_base64_decode_block stored_inflate
          (fopen ([115, 104, 99, 58, 47, 53, 54, 48, 54, 48, 51, 48, 49, 50, 48, 51, 54, 51,
            54, 50, 48, 48, 48, 53, 48, 49, 50, 50, 56, 53, 50, 51, 54, 50, 48, 53, 57])) =
        ⟨[123, 125, 10, 72, 105], none, true⟩ :=
  have h := c19_capacity_never_stops spec_base64_decode_block stored_inflate
    ⟨37, [53, 54, 48, 54, 48, 51, 48, 49, 50, 48, 51, 54, 51, 54, 50, 48, 48, 48, 53,
      48, 49, 50, 50, 56, 53, 50, 51, 54, 50, 48, 53, 57]⟩ (by decide)
  have hd := h.2.2.2 [(53, 54), (48, 54), (48, 51)]
    [50, 48, 51, 54, 51, 54, 50, 48, 48, 48, 53, 48, 49, 50, 50, 56, 53, 50, 51, 54, 50, 48,
      53, 57] (by decide) (by rfl)
  have hs : read_sections spec_base64_decode_block stored_inflate
      ⟨37, [53, 54, 48, 54, 48, 51, 48, 49, 50, 48, 51, 54, 51, 54, 50, 48, 48, 48, 53,
        48, 49, 50, 50, 56, 53, 50, 51, 54, 50, 48, 53, 57]⟩ =
      ⟨[123, 125, 10, 72, 105], none, true⟩ := hd.2.trans (by rfl)
  ⟨fun cap hc => (h.2.1 cap hc).1.trans hd.1,
    ((h.2.2.1 _ _ hd.1).2.2.2.2.2 [123, 125] (by rfl)).2 (by decide) |>.2.2,
    hs,
    (h.1 [115, 104, 99, 58, 47, 53, 54, 48, 54, 48, 51, 48, 49, 50, 48, 51, 54, 51,
      54, 50, 48, 48, 48, 53, 48, 49, 50, 50, 56, 53, 50, 51, 54, 50, 48, 53, 57]
      (by rfl)).1.trans hs⟩

end ShcDecode
